import Mathlib

/-!
Verification of the Quantitative Signal & Aggregation Pipeline of
`cs2-inventory-manager` against its natural-language specification.

Shallow embedding conventions:
* Python floats are modelled as rationals (`ℚ`); transcendental functions
  (`math.log`, `math.sqrt`) that never influence a claim's control flow are
  passed as explicit function parameters.
* `None` / nullable DB columns become `Option`.
* SQLite tables become association lists keyed by their natural unique key,
  with upsert-as-replace-first-else-append ("latest row wins").
* All definitions are transcribed from `app/services/quant_engine.py`,
  `app/services/collector.py` and `app/api/routes/analysis.py`.
-/

namespace CS2

/-! ## Indicator library (quant_engine.py, pure math helpers) -/

/-- `_sma` from quant_engine.py: simple moving average of the last `period`
values, `none` if fewer points exist. -/
def _sma (values : List ℚ) (period : ℕ) : Option ℚ :=
  if values.length < period then none
  else some ((values.drop (values.length - period)).sum / period)

/-- Consecutive deltas `closes[i] - closes[i-1]` (the Python list
comprehension over `range(1, len(closes))`). -/
def deltas (closes : List ℚ) : List ℚ :=
  (closes.zip closes.tail).map (fun p => p.2 - p.1)

/-- `calc_rsi` from quant_engine.py: Wilder-smoothed RSI.  The Python loop
updates both running averages in lock-step; it is rendered as a fold over the
zipped tails of the gain and loss lists. -/
def calc_rsi (closes : List ℚ) (period : ℕ := 14) : Option ℚ :=
  if closes.length < period + 1 then none
  else
    let changes := deltas closes
    let gains := changes.map (fun c => max c 0)
    let losses := changes.map (fun c => max (-c) 0)
    let avgGain0 := (gains.take period).sum / period
    let avgLoss0 := (losses.take period).sum / period
    let stepped := ((gains.drop period).zip (losses.drop period)).foldl
      (fun (p : ℚ × ℚ) gl =>
        ((p.1 * ((period : ℚ) - 1) + gl.1) / period,
         (p.2 * ((period : ℚ) - 1) + gl.2) / period))
      (avgGain0, avgLoss0)
    if stepped.2 = 0 then some 100
    else some (100 - 100 / (1 + stepped.1 / stepped.2))

/-- Wilder recursive smoothing as the spec words it: starting from a seed
average, each later delta updates `avg = (avg*(period-1) + new) / period`. -/
def wilderSmooth (period : ℕ) (seed : ℚ) (rest : List ℚ) : ℚ :=
  rest.foldl (fun avg x => (avg * ((period : ℚ) - 1) + x) / period) seed

/-- Wilder-smoothed average of the gains of the deltas of `closes`: seeded
with the simple mean of the first `period` gains, then smoothed over the
remaining ones. -/
def rsiAvgGain (closes : List ℚ) (period : ℕ) : ℚ :=
  wilderSmooth period
    ((((deltas closes).map (fun c => max c 0)).take period).sum / period)
    (((deltas closes).map (fun c => max c 0)).drop period)

/-- Wilder-smoothed average of the losses of the deltas of `closes`. -/
def rsiAvgLoss (closes : List ℚ) (period : ℕ) : ℚ :=
  wilderSmooth period
    ((((deltas closes).map (fun c => max (-c) 0)).take period).sum / period)
    (((deltas closes).map (fun c => max (-c) 0)).drop period)

/-- Reference definition of RSI following the spec's words (for the
refinement claim C5): seed avg gain/loss as the simple mean of the first
`period` deltas, smooth each later delta recursively, then `RSI = 100` if
the smoothed average loss is zero, else `100 - 100/(1 + avg_gain/avg_loss)`;
requires at least `period+1` points. -/
def rsiSpec (closes : List ℚ) (period : ℕ) : Option ℚ :=
  if closes.length < period + 1 then none
  else if rsiAvgLoss closes period = 0 then some 100
  else some (100 - 100 / (1 + rsiAvgGain closes period / rsiAvgLoss closes period))

/-- Result record of `calc_bollinger` (the Python dict). -/
structure Bollinger where
  ma : ℚ
  upper : ℚ
  lower : ℚ
  pct_b : ℚ
  bandwidth : ℚ
  deriving DecidableEq, Repr

/-- `calc_bollinger` from quant_engine.py.  `msqrt` stands for `math.sqrt`
(only applied to the non-negative variance; it never affects the
insufficient-history branch). -/
def calc_bollinger (msqrt : ℚ → ℚ) (closes : List ℚ)
    (period : ℕ := 20) (num_std : ℚ := 2) : Option Bollinger :=
  if closes.length < period then none
  else
    let window := closes.drop (closes.length - period)
    let ma := window.sum / period
    let variance := (window.map (fun x => (x - ma) * (x - ma))).sum / period
    let std := msqrt variance
    let upper := ma + num_std * std
    let lower := ma - num_std * std
    let bandRange := upper - lower
    if bandRange = 0 then
      some ⟨ma, upper, lower, 1/2, 0⟩
    else
      some ⟨ma, upper, lower, (closes.getLastD 0 - lower) / bandRange,
            if ma = 0 then 0 else bandRange / ma⟩

/-- `calc_momentum` from quant_engine.py: percent change vs the close
`period` bars back (`closes[-period-1]`), `none` if history is too short or
the reference close is zero. -/
def calc_momentum (closes : List ℚ) (period : ℕ) : Option ℚ :=
  if closes.length ≤ period ∨ closes.getD (closes.length - (period + 1)) 0 = 0 then none
  else
    let ref := closes.getD (closes.length - (period + 1)) 0
    some ((closes.getLastD 0 - ref) / ref * 100)

/-- The valid log returns collected by `calc_volatility`: for each of the
last `period` steps, keep `mlog (closes[i] / closes[i-1])` when both closes
are positive (`mlog` stands for `math.log`). -/
def volLogReturns (mlog : ℚ → ℚ) (closes : List ℚ) (period : ℕ) : List ℚ :=
  (List.range period).filterMap (fun j =>
    let i := closes.length - period + j
    let prev := closes.getD (i - 1) 0
    let cur := closes.getD i 0
    if prev > 0 ∧ cur > 0 then some (mlog (cur / prev)) else none)

/-- `calc_volatility` from quant_engine.py: annualized stddev of daily log
returns; `none` when fewer than `period+1` closes or fewer than five valid
log returns exist. -/
def calc_volatility (mlog msqrt : ℚ → ℚ) (closes : List ℚ) (period : ℕ := 30) : Option ℚ :=
  if closes.length < period + 1 then none
  else
    let lr := volLogReturns mlog closes period
    if lr.length < 5 then none
    else
      let mean := lr.sum / lr.length
      let variance := (lr.map (fun r => (r - mean) * (r - mean))).sum / lr.length
      some (msqrt variance * msqrt 365 * 100)

/-- The spec's RSI example series (15 closes, used with period 14). -/
def rsiExample : List ℚ :=
  [44, 44.25, 44.5, 43.75, 44.65, 45.1, 45.42, 45.84, 46.08, 45.89, 46.03,
   45.61, 46.28, 46.28, 46]

/-! ## Composite scoring (quant_engine.py) -/

/-- Final clamp `max(0.0, min(100.0, score))` shared by both composite
scores. -/
def clampScore (x : ℚ) : ℚ := max 0 (min 100 x)

/-- Dimension 1 of `compute_sell_score` (profit attainment, the first
`score +=` block). -/
def sellDim1 (pnl_pct : Option ℚ) (target_pnl_pct : ℚ) : ℚ :=
  match pnl_pct with
  | none => 0
  | some pnl =>
    if target_pnl_pct > 0 then
      let ratio := pnl / target_pnl_pct
      if ratio ≥ 3/2 then 30
      else if ratio ≥ 1 then 20 + (ratio - 1) * 20
      else if ratio ≥ 0 then ratio * 12
      else max (-22) (pnl * (1/2))
    else 0

/-- Dimension 2 of `compute_sell_score` (annualized-return decay). -/
def sellDim2 (annualized_return : Option ℚ) (days_held : ℤ) (pnl_pct : Option ℚ) : ℚ :=
  match annualized_return with
  | none => 0
  | some ann =>
    if days_held > 30 ∧ (pnl_pct = none ∨ ∃ p, pnl_pct = some p ∧ p ≥ 0) then
      if ann < 15 then (15 - ann) / 15 * 15
      else if ann > 15 * 3 then -5
      else 0
    else 0

/-- Dimension 3 of `compute_sell_score` (concentration + unit-count bonus;
the count bonus sits inside the `concentration_pct is not None` branch). -/
def sellDim3 (concentration_pct : Option ℚ) (holding_count : ℤ) : ℚ :=
  match concentration_pct with
  | none => 0
  | some conc =>
    (if conc > 15 then min 20 (10 + (conc - 15) * (1/2))
     else if conc > 5 then (conc - 5) * 1
     else 0)
    + (if holding_count > 50 then min 5 ((holding_count - 50) * (1/20 : ℚ))
       else if holding_count > 20 then min 3 ((holding_count - 20) * (1/10 : ℚ))
       else 0)

/-- Dimension 4 of `compute_sell_score` (abnormal movement), clamped to
`[-12, 25]`. -/
def sellDim4 (volatility_zscore rsi bb_pos momentum_30 : Option ℚ) : ℚ :=
  let w1 : ℚ :=
    match volatility_zscore with
    | none => 0
    | some z =>
      if z > 2 then min (z * 4) 15
      else if z > 1 then (z - 1) * 8
      else if z < -(3/2) then -(min (-z * 2) 6)
      else 0
  let w2 : ℚ :=
    match rsi with
    | none => 0
    | some r =>
      if r > 75 then min ((r - 75) * (2/5)) 5
      else if r < 25 then -(min ((25 - r) * (6/25)) 6)
      else 0
  let w3 : ℚ :=
    match bb_pos with
    | none => 0
    | some b =>
      if b > 9/10 then min ((b - 9/10) * 30) 3
      else if b < 1/10 then -(min ((1/10 - b) * 15) 3)
      else 0
  let w4 : ℚ :=
    match momentum_30 with
    | none => 0
    | some m => if m > 15 then min ((m - 15) * (3/20)) 2 else 0
  max (-12) (min 25 (w1 + w2 + w3 + w4))

/-- Dimension 5 of `compute_sell_score` (market impact). -/
def sellDim5 (market_share_pct : Option ℚ) : ℚ :=
  match market_share_pct with
  | none => 0
  | some m =>
    if m > 30 then 5
    else if m > 10 then (m - 10) * (1/4)
    else 0

/-- `compute_sell_score` from quant_engine.py.  The Python body starts from
the 45.0 baseline and performs five `score +=` blocks whose increments never
read the running score, so it equals the clamped sum of the five dimension
terms. -/
def compute_sell_score (pnl_pct : Option ℚ) (target_pnl_pct : ℚ := 30)
    (annualized_return : Option ℚ := none) (days_held : ℤ := 0)
    (concentration_pct : Option ℚ := none) (holding_count : ℤ := 1)
    (volatility_zscore : Option ℚ := none) (rsi : Option ℚ := none)
    (bb_pos : Option ℚ := none) (momentum_30 : Option ℚ := none)
    (market_share_pct : Option ℚ := none) : ℚ :=
  clampScore (45 + sellDim1 pnl_pct target_pnl_pct
    + sellDim2 annualized_return days_held pnl_pct
    + sellDim3 concentration_pct holding_count
    + sellDim4 volatility_zscore rsi bb_pos momentum_30
    + sellDim5 market_share_pct)

/-- `compute_opportunity_score` from quant_engine.py. -/
def compute_opportunity_score (rsi bb_pos momentum_7 spread_pct : Option ℚ)
    (pnl_pct : Option ℚ := none) (target_pnl_pct : ℚ := 30) : ℚ :=
  let s1 : ℚ :=
    match rsi with
    | none => 0
    | some r => if r < 30 then min ((30 - r) * (83/100)) 25 else 0
  let s2 : ℚ :=
    match bb_pos with
    | none => 0
    | some b => if b < 0 then min (-b * 20) 20 else 0
  let s3 : ℚ :=
    match momentum_7 with
    | none => 0
    | some m => if m < -5 then min ((-m - 5) * (3/4)) 15 else 0
  let s4 : ℚ :=
    match spread_pct with
    | none => 0
    | some sp => if sp > 5 then min ((sp - 5) * (6/5)) 20 else 0
  let s5 : ℚ :=
    match pnl_pct with
    | none => 0
    | some pnl =>
      if target_pnl_pct > 0 then
        if pnl < -20 then min ((-pnl - 20) * (1/2)) 20
        else if pnl < -5 then (-pnl - 5) * (67/100)
        else if pnl > target_pnl_pct then -(min ((pnl - target_pnl_pct) * (3/10)) 15)
        else 0
      else 0
  clampScore (50 + s1 + s2 + s3 + s4 + s5)

/-! ## Alert generation (quant_engine.py) -/

/-- One row of the `quant_alert` table (the fields that drive
deduplication; the rendered title/detail strings carry no behavioural
content and are omitted). -/
structure AlertRow where
  name : String
  kind : String
  severity : String
  createdAt : ℤ
  deriving DecidableEq, Repr

/-- The 24-hour duplicate check
`created_at > func.datetime("now", "-1 day")` shared by `_generate_alerts`
and `compute_quick_pnl_alerts`; time is modelled in seconds. -/
def recentDup (now : ℤ) (name kind : String) (store : List AlertRow) : Bool :=
  store.any (fun a => decide (a.name = name ∧ a.kind = kind ∧ now - 86400 < a.createdAt))

/-- One entry of `_ALERT_RULES`: alert type, severity, signal field, the
comparison direction (`true` for `>`), and the threshold. -/
structure AlertRule where
  kind : String
  severity : String
  field : String
  isGt : Bool
  threshold : ℚ

/-- `_ALERT_RULES` from quant_engine.py, in source order. -/
def alertRules : List AlertRule :=
  [⟨"profit_50", "warning", "pnl_pct", true, 50⟩,
   ⟨"profit_100", "critical", "pnl_pct", true, 100⟩,
   ⟨"near_ath", "warning", "ath_pct", true, 90⟩,
   ⟨"rsi_overbought", "warning", "rsi_14", true, 75⟩,
   ⟨"rsi_oversold", "info", "rsi_14", false, 25⟩,
   ⟨"momentum_surge", "warning", "momentum_7", true, 20⟩,
   ⟨"spread_arb", "info", "spread_pct", true, 15⟩]

/-- Inner rule loop of `_generate_alerts` for one signal row: for each rule,
a missing or non-triggering value is skipped; a triggering one is suppressed
when an alert of the same (item, kind) exists within 24 hours, else a new
row is inserted (session autoflush makes it visible to later dup checks). -/
def genAlertsRules (now : ℤ) (name : String) (vals : String → Option ℚ) :
    List AlertRule → List AlertRow → List AlertRow
  | [], store => store
  | r :: rest, store =>
    match vals r.field with
    | none => genAlertsRules now name vals rest store
    | some v =>
      if if r.isGt then v > r.threshold else v < r.threshold then
        if recentDup now name r.kind store then genAlertsRules now name vals rest store
        else genAlertsRules now name vals rest (store ++ [⟨name, r.kind, r.severity, now⟩])
      else genAlertsRules now name vals rest store

/-- `_generate_alerts` restricted to a single item's latest signal (the
outer loop ranges over the date's signals; deduplication is per item and
kind). -/
def generateAlertsForSignal (now : ℤ) (name : String) (vals : String → Option ℚ)
    (store : List AlertRow) : List AlertRow :=
  genAlertsRules now name vals alertRules store

/-- Threshold table of `compute_quick_pnl_alerts`, highest first. -/
def quickPnlThresholds : List (ℚ × String × String) :=
  [(100, "profit_100", "critical"), (50, "profit_50", "warning")]

/-- Threshold loop of `compute_quick_pnl_alerts` for one item: on a
triggering threshold a 24-hour duplicate means `continue` (try the next,
lower threshold), otherwise insert and `break` (only the highest alert per
item). -/
def quickPnlLoop (now : ℤ) (name : String) (pnl : ℚ) :
    List (ℚ × String × String) → List AlertRow → List AlertRow
  | [], store => store
  | (thr, kind, sev) :: rest, store =>
    if pnl > thr then
      if recentDup now name kind store then quickPnlLoop now name pnl rest store
      else store ++ [⟨name, kind, sev, now⟩]
    else quickPnlLoop now name pnl rest store

/-- `compute_quick_pnl_alerts` restricted to a single inventory item with
effective cost and a latest snapshot price (pnl% already computed). -/
def quickPnlForItem (now : ℤ) (name : String) (pnl : ℚ) (store : List AlertRow) :
    List AlertRow :=
  quickPnlLoop now name pnl quickPnlThresholds store

/-- Number of alert rows in the store for a given (item, kind) pair. -/
def countPair (store : List AlertRow) (name kind : String) : ℕ :=
  (store.filter (fun a => decide (a.name = name ∧ a.kind = kind))).length

/-! ## Daily bar store (price_history) and the Snapshot Aggregator
(collector.py, aggregate_daily) -/

/-- One row of `price_snapshot`.  `minute` encodes the `snapshot_minute`
string "YYYYMMDDHHmm" as a number, so the SQL date-prefix match
`snapshot_minute LIKE date || '%'` becomes `minute / 10000 = date`. -/
structure Snap where
  item : String
  platform : String
  minute : ℕ
  sellPrice : Option ℚ
  sellCount : Option ℤ
  bidCount : Option ℤ
  deriving DecidableEq, Repr

/-- Natural unique key of `price_history`:
(market_hash_name, platform, record_date), the date numeric "YYYYMMDD". -/
structure BarKey where
  item : String
  platform : String
  date : ℕ
  deriving DecidableEq, Repr

/-- Value fields of one `price_history` row (all columns nullable). -/
structure Bar where
  openPrice : Option ℚ
  closePrice : Option ℚ
  highPrice : Option ℚ
  lowPrice : Option ℚ
  sellCount : Option ℤ
  bidCount : Option ℤ
  deriving DecidableEq, Repr

/-- Keyed upsert (`INSERT ... ON CONFLICT DO UPDATE` on the natural key):
replace the first row holding the key, else append. -/
def upsertBar (k : BarKey) (v : Bar) : List (BarKey × Bar) → List (BarKey × Bar)
  | [] => [(k, v)]
  | p :: rest => if p.1 = k then (k, v) :: rest else p :: upsertBar k v rest

/-- Apply a list of row upserts in order. -/
def applyRows (rows : List (BarKey × Bar)) (s : List (BarKey × Bar)) :
    List (BarKey × Bar) :=
  rows.foldl (fun acc r => upsertBar r.1 r.2 acc) s

/-- Lookup one `price_history` row by its unique key. -/
def lookupBar (s : List (BarKey × Bar)) (k : BarKey) : Option Bar :=
  (s.find? (fun p => decide (p.1 = k))).map Prod.snd

/-- `ORDER BY snapshot_minute ASC LIMIT 1` (first wins on a tie, which the
table's unique key rules out). -/
def earliestSnap : List Snap → Option Snap
  | [] => none
  | t :: rest =>
    match earliestSnap rest with
    | none => some t
    | some u => if t.minute ≤ u.minute then some t else some u

/-- `ORDER BY snapshot_minute DESC LIMIT 1`. -/
def latestSnap : List Snap → Option Snap
  | [] => none
  | t :: rest =>
    match latestSnap rest with
    | none => some t
    | some u => if t.minute ≥ u.minute then some t else some u

/-- SQL `MIN` over a nullable column: NULLs ignored, NULL on an empty set. -/
def optMinQ (l : List (Option ℚ)) : Option ℚ :=
  match l.filterMap id with
  | [] => none
  | x :: xs => some (xs.foldl min x)

/-- SQL `MAX` over a nullable column. -/
def optMaxQ (l : List (Option ℚ)) : Option ℚ :=
  match l.filterMap id with
  | [] => none
  | x :: xs => some (xs.foldl max x)

/-- SQL `SUM` over a nullable integer column: NULLs ignored, NULL on an
empty set. -/
def optSumZ (l : List (Option ℤ)) : Option ℤ :=
  match l.filterMap id with
  | [] => none
  | x :: xs => some (xs.foldl (· + ·) x)

/-- Snapshots of the target date for one (item, platform) with a non-null
sell price (the WHERE filters of the OHLC aggregation SQL). -/
def validGroup (snaps : List Snap) (d : ℕ) (item pf : String) : List Snap :=
  snaps.filter (fun t =>
    decide (t.minute / 10000 = d ∧ t.item = item ∧ t.platform = pf ∧ t.sellPrice ≠ none))

/-- All snapshots of the target date for one (item, platform); the
sell/bidding-count subqueries carry no sell-price filter. -/
def dateGroup (snaps : List Snap) (d : ℕ) (item pf : String) : List Snap :=
  snaps.filter (fun t => decide (t.minute / 10000 = d ∧ t.item = item ∧ t.platform = pf))

/-- The per-platform OHLC bar computed for one (item, platform) group:
open/close from the earliest/latest valid tick, high/low the extrema,
counts from the latest snapshot of the date. -/
def groupBar (snaps : List Snap) (d : ℕ) (item pf : String) : Bar :=
  { openPrice := (earliestSnap (validGroup snaps d item pf)).bind Snap.sellPrice
    closePrice := (latestSnap (validGroup snaps d item pf)).bind Snap.sellPrice
    highPrice := optMaxQ ((validGroup snaps d item pf).map Snap.sellPrice)
    lowPrice := optMinQ ((validGroup snaps d item pf).map Snap.sellPrice)
    sellCount := (latestSnap (dateGroup snaps d item pf)).bind Snap.sellCount
    bidCount := (latestSnap (dateGroup snaps d item pf)).bind Snap.bidCount }

/-- The distinct (item, platform) group keys of the aggregation query. -/
def phase1Keys (snaps : List Snap) (d : ℕ) : List (String × String) :=
  ((snaps.filter (fun t => decide (t.minute / 10000 = d ∧ t.sellPrice ≠ none))).map
    (fun t => (t.item, t.platform))).dedup

/-- The per-platform rows written by the first phase of `aggregate_daily`. -/
def phase1Rows (snaps : List Snap) (d : ℕ) : List (BarKey × Bar) :=
  (phase1Keys snaps d).map (fun kp => (⟨kp.1, kp.2, d⟩, groupBar snaps d kp.1 kp.2))

/-- The real-platform rows of the store for the target date
(`WHERE record_date = :date AND platform != 'ALL'`). -/
def realBars (s : List (BarKey × Bar)) (d : ℕ) : List (BarKey × Bar) :=
  s.filter (fun p => decide (p.1.date = d ∧ p.1.platform ≠ "ALL"))

/-- The synthetic cross-platform bar of one item: min(open), min(close),
max(high), min(low) and the sums of the counts over the item's
real-platform bars of the date. -/
def allBar (rows : List (BarKey × Bar)) (item : String) : Bar :=
  { openPrice := optMinQ (((rows.filter (fun p => decide (p.1.item = item))).map Prod.snd).map Bar.openPrice)
    closePrice := optMinQ (((rows.filter (fun p => decide (p.1.item = item))).map Prod.snd).map Bar.closePrice)
    highPrice := optMaxQ (((rows.filter (fun p => decide (p.1.item = item))).map Prod.snd).map Bar.highPrice)
    lowPrice := optMinQ (((rows.filter (fun p => decide (p.1.item = item))).map Prod.snd).map Bar.lowPrice)
    sellCount := optSumZ (((rows.filter (fun p => decide (p.1.item = item))).map Prod.snd).map Bar.sellCount)
    bidCount := optSumZ (((rows.filter (fun p => decide (p.1.item = item))).map Prod.snd).map Bar.bidCount) }

/-- The synthetic "ALL" rows written by the second phase: one per item
having a real-platform bar on the date. -/
def allRows (s : List (BarKey × Bar)) (d : ℕ) : List (BarKey × Bar) :=
  (((realBars s d).map (fun p => p.1.item)).dedup).map
    (fun item => (⟨item, "ALL", d⟩, allBar (realBars s d) item))

/-- `aggregate_daily` from collector.py: upsert the per-platform OHLC rows,
then derive and upsert the synthetic "ALL" rows from the date's
real-platform bars; a no-op (not an error) when the date has no valid
snapshot. -/
def aggregate_daily (snaps : List Snap) (d : ℕ) (s : List (BarKey × Bar)) :
    List (BarKey × Bar) :=
  if (phase1Rows snaps d).isEmpty then s
  else
    let s1 := applyRows (phase1Rows snaps d) s
    applyRows (allRows s1 d) s1

/-- The spec's aggregation example: four ticks with time-ordered sell
prices [10, 12, 9, 11] for one item/platform/date. -/
def exSnaps : List Snap :=
  [⟨"A", "B", 1, some 10, none, none⟩,
   ⟨"A", "B", 2, some 12, none, none⟩,
   ⟨"A", "B", 3, some 9, none, none⟩,
   ⟨"A", "B", 4, some 11, none, none⟩]

/-! ## Collector job guards and the Backfill Interpolator (collector.py,
analysis.py) -/

/-- Polled state of the frequent price-collection job (`collector_state`);
only the fields the claims mention are kept. -/
structure CollectorState where
  status : String
  lastError : Option String
  deriving DecidableEq, Repr

/-- Polled state of the backfill job (`backfill_state`). -/
structure BackfillState where
  status : String
  progress : String
  deriving DecidableEq, Repr

/-- Python truthiness of `settings.steamdt_api_key`: `None` and the empty
string are both falsy. -/
def keyMissing : Option String → Bool
  | none => true
  | some s => s.isEmpty

/-- The missing-key guard of `collect_prices`: with no SteamDT API key the
job returns immediately before touching its polled state; otherwise the
body (the state updates, batching, fetching — passed as an explicit state
transformer) runs.  Totality of the model reflects that the guard path
surfaces no exception. -/
def collect_prices (apiKey : Option String) (body : CollectorState → CollectorState)
    (st : CollectorState) : CollectorState :=
  if keyMissing apiKey then st else body st

/-- The missing-key guard of `backfill_avg_prices`: with no API key the job
sets `status = "error"` and `progress = "No SteamDT API key"` and returns;
otherwise the body runs. -/
def backfill_avg_prices (apiKey : Option String)
    (body : BackfillState → BackfillState) (st : BackfillState) : BackfillState :=
  if keyMissing apiKey then { st with status := "error", progress := "No SteamDT API key" }
  else body st

/-- The three period averages fetched for one item (stored only when the
upstream returned a positive value). -/
structure AvgData where
  avg7 : Option ℚ
  avg30 : Option ℚ
  avg90 : Option ℚ
  deriving DecidableEq, Repr

/-- Python's `or` on the optional average prices (falsy-coalescing: `None`
and 0 both fall through). -/
def pyOr (a b : Option ℚ) : Option ℚ :=
  match a with
  | none => b
  | some x => if x = 0 then b else some x

/-- Python `round(x, 2)` — rounding to cents (the exact tie convention is
immaterial to every claim). -/
def round2 (x : ℚ) : ℚ := ⌊x * 100 + 1/2⌋ / 100

/-- Segment base price of a backfill day: days 16–45 the far average,
days 5–15 the linear interpolation with `t = (15 - daysAgo)/11` toward the
mid average, days 1–4 the near average. -/
def backfillBase (far mid near : ℚ) (daysAgo : ℕ) : ℚ :=
  if daysAgo > 15 then far
  else if daysAgo > 4 then
    far * (1 - (15 - (daysAgo : ℚ)) / 11) + mid * ((15 - (daysAgo : ℚ)) / 11)
  else near

/-- The synthetic close written for one backfill day: the segment base
price times the day's random factor `1 + noise`, rounded to cents
(`noise daysAgo` models the day's `random.uniform(-0.015, 0.015)` sample,
taken as an input). -/
def backfillPrice (far mid near : ℚ) (noise : ℕ → ℚ) (daysAgo : ℕ) : ℚ :=
  round2 (backfillBase far mid near daysAgo * (1 + noise daysAgo))

/-- The loop counter values of `range(45, 0, -1)`: 45 down to 1. -/
def backfillDays : List ℕ := (List.range 45).map (fun i => 45 - i)

/-- The 45 synthetic rows generated for one item (the values dict of each
upsert): platform "ALL", date `today - daysAgo` (calendar dates modelled
as day ordinals), open = close = price, high/low = price ±1% rounded,
counts absent.  When the far price exists the mid/near fallback chains also
yield a value, so their `getD far` defaults never fire. -/
def backfillItemRows (name : String) (today : ℕ) (av : AvgData) (noise : ℕ → ℚ) :
    List (BarKey × Bar) :=
  match pyOr av.avg90 (pyOr av.avg30 av.avg7) with
  | none => []
  | some far =>
    let mid := (pyOr av.avg30 (pyOr av.avg7 av.avg90)).getD far
    let near := (pyOr av.avg7 (pyOr av.avg30 av.avg90)).getD far
    backfillDays.map (fun daysAgo =>
      (⟨name, "ALL", today - daysAgo⟩,
       { openPrice := some (backfillPrice far mid near noise daysAgo)
         closePrice := some (backfillPrice far mid near noise daysAgo)
         highPrice := some (round2 (backfillPrice far mid near noise daysAgo * (101/100)))
         lowPrice := some (round2 (backfillPrice far mid near noise daysAgo * (99/100)))
         sellCount := none
         bidCount := none }))

/-- The backfill upsert: `ON CONFLICT` updates only the four price columns
(counts keep their previous values); a fresh insert has no counts. -/
def upsertBackfill (k : BarKey) (v : Bar) : List (BarKey × Bar) → List (BarKey × Bar)
  | [] => [(k, v)]
  | p :: rest =>
    if p.1 = k then
      (k, { p.2 with
            openPrice := v.openPrice
            closePrice := v.closePrice
            highPrice := v.highPrice
            lowPrice := v.lowPrice }) :: rest
    else p :: upsertBackfill k v rest

/-- Application of one item's backfill rows to the bar store. -/
def backfillApplyItem (name : String) (today : ℕ) (av : AvgData) (noise : ℕ → ℚ)
    (s : List (BarKey × Bar)) : List (BarKey × Bar) :=
  (backfillItemRows name today av noise).foldl (fun acc r => upsertBackfill r.1 r.2 acc) s

/-- `trigger_backfill` from analysis.py: reject only when a backfill is
already running, otherwise start the run — there is no check of existing
genuine price history.  Returns the started flag and the resulting bar
store. -/
def trigger_backfill (bstate : BackfillState)
    (run : List (BarKey × Bar) → List (BarKey × Bar))
    (s : List (BarKey × Bar)) : Bool × List (BarKey × Bar) :=
  if bstate.status = "running" then (false, s) else (true, run s)

/-- A bar store holding one genuine "ALL" bar (close 999) for day ordinal
55, i.e. 45 days before an example today of 100. -/
def exStore : List (BarKey × Bar) :=
  [(⟨"A", "ALL", 55⟩,
    { openPrice := some 999, closePrice := some 999, highPrice := some 999,
      lowPrice := some 999, sellCount := none, bidCount := none })]

end CS2

namespace CS2

/-! ## Theorems: C1, C4, C7 (pure scoring / indicator totality) -/

/-- C1: for every combination of inputs (each optional indicator or context
argument either a rational value or `none`), `compute_sell_score` and
`compute_opportunity_score` both return a value in the closed interval
`[0, 100]`. -/
theorem C1_scores_bounded
    (pnl ann : Option ℚ) (tg : ℚ) (dh hc : ℤ)
    (conc volz rsi bb m30 m7 mkt spread : Option ℚ) :
    (0 ≤ compute_sell_score pnl tg ann dh conc hc volz rsi bb m30 mkt ∧
      compute_sell_score pnl tg ann dh conc hc volz rsi bb m30 mkt ≤ 100) ∧
    (0 ≤ compute_opportunity_score rsi bb m7 spread pnl tg ∧
      compute_opportunity_score rsi bb m7 spread pnl tg ≤ 100) := by
  have hb : ∀ x : ℚ, 0 ≤ clampScore x ∧ clampScore x ≤ 100 := by
    intro x
    refine ⟨le_max_left 0 _, max_le (by norm_num) (min_le_left 100 x)⟩
  exact ⟨hb _, hb _⟩

/-- C4: every indicator function returns `none` (never an exception — all
the Lean embeddings are total functions) when the input is shorter than its
required window: `period` points for SMA and Bollinger, `period+1` for RSI,
momentum and volatility, and volatility additionally when fewer than five
valid log returns exist. -/
theorem C4_indicators_total_on_short_input :
    (∀ (values : List ℚ) (period : ℕ), values.length < period →
      _sma values period = none) ∧
    (∀ (closes : List ℚ) (period : ℕ), closes.length < period + 1 →
      calc_rsi closes period = none) ∧
    (∀ (msqrt : ℚ → ℚ) (closes : List ℚ) (period : ℕ) (k : ℚ),
      closes.length < period → calc_bollinger msqrt closes period k = none) ∧
    (∀ (closes : List ℚ) (period : ℕ), closes.length < period + 1 →
      calc_momentum closes period = none) ∧
    (∀ (mlog msqrt : ℚ → ℚ) (closes : List ℚ) (period : ℕ),
      closes.length < period + 1 → calc_volatility mlog msqrt closes period = none) ∧
    (∀ (mlog msqrt : ℚ → ℚ) (closes : List ℚ) (period : ℕ),
      (volLogReturns mlog closes period).length < 5 →
      calc_volatility mlog msqrt closes period = none) := by
  refine ⟨?_, ?_, ?_, ?_, ?_, ?_⟩
  · intro values period h
    simp [_sma, h]
  · intro closes period h
    simp [calc_rsi, h]
  · intro msqrt closes period k h
    simp [calc_bollinger, h]
  · intro closes period h
    have : closes.length ≤ period := by omega
    simp [calc_momentum, this]
  · intro mlog msqrt closes period h
    simp [calc_volatility, h]
  · intro mlog msqrt closes period h
    by_cases hl : closes.length < period + 1
    · simp [calc_volatility, hl]
    · simp only [calc_volatility, if_neg hl]
      simp [h]

/-- C4 witness: concrete short inputs for each indicator. -/
theorem C4_indicators_total_on_short_input_witness :
    _sma [1, 2] 5 = none ∧
    calc_rsi [1, 2] 14 = none ∧
    calc_bollinger (fun x => x) [1, 2] 20 2 = none ∧
    calc_momentum [1, 2] 7 = none ∧
    calc_volatility (fun x => x) (fun x => x) [1, 2] 30 = none ∧
    calc_volatility (fun x => x) (fun x => x) [1, 1, 1, 1] 3 = none := by
  obtain ⟨h1, h2, h3, h4, h5, h6⟩ := C4_indicators_total_on_short_input
  refine ⟨h1 [1, 2] 5 (by decide), h2 [1, 2] 14 (by decide),
    h3 (fun x => x) [1, 2] 20 2 (by decide), h4 [1, 2] 7 (by decide),
    h5 (fun x => x) (fun x => x) [1, 2] 30 (by decide),
    h6 (fun x => x) (fun x => x) [1, 1, 1, 1] 3 ?_⟩
  norm_num [volLogReturns, List.range_succ, List.filterMap_cons]

/-- C7: with a defined pnl% and positive target%, the profit-attainment
dimension of the sell score contributes exactly the piecewise value stated
by the spec — before the final clamp the score is the baseline 45 plus the
independent dimension terms, and `sellDim1` is: `+30` when
`ratio = pnl/target ≥ 1.5`; `20 + (ratio-1)*20` when `1 ≤ ratio < 1.5`;
`ratio*12` when `0 ≤ ratio < 1`; and `max (-22) (pnl*0.5) ≤ 0` when
`pnl < 0`. -/
theorem C7_sell_dim1_piecewise
    (pnl tg : ℚ) (ann : Option ℚ) (dh hc : ℤ)
    (conc volz rsi bb m30 mkt : Option ℚ) (htg : 0 < tg) :
    (compute_sell_score (some pnl) tg ann dh conc hc volz rsi bb m30 mkt =
      clampScore (45 + sellDim1 (some pnl) tg + sellDim2 ann dh (some pnl)
        + sellDim3 conc hc + sellDim4 volz rsi bb m30 + sellDim5 mkt)) ∧
    (pnl / tg ≥ 3/2 → sellDim1 (some pnl) tg = 30) ∧
    (1 ≤ pnl / tg → pnl / tg < 3/2 →
      sellDim1 (some pnl) tg = 20 + (pnl / tg - 1) * 20) ∧
    (0 ≤ pnl / tg → pnl / tg < 1 → sellDim1 (some pnl) tg = pnl / tg * 12) ∧
    (pnl < 0 → sellDim1 (some pnl) tg = max (-22) (pnl * (1/2)) ∧
      sellDim1 (some pnl) tg ≤ 0) := by
  refine ⟨rfl, ?_, ?_, ?_, ?_⟩
  · intro h
    simp [sellDim1, htg, h]
  · intro h1 h2
    rw [sellDim1]
    simp only [if_pos htg, if_neg (not_le.mpr h2), if_pos h1]
  · intro h0 h1
    rw [sellDim1]
    have h32 : ¬(pnl / tg ≥ 3/2) := by
      intro h; exact absurd (lt_of_lt_of_le h1 (by linarith)) (lt_irrefl _)
    simp only [if_pos htg, if_neg h32, if_neg (not_le.mpr h1), if_pos h0]
  · intro h
    have hr : pnl / tg < 0 := div_neg_of_neg_of_pos h htg
    rw [sellDim1]
    have h32 : ¬(pnl / tg ≥ 3/2) := by intro hx; linarith
    have h1 : ¬(pnl / tg ≥ 1) := by intro hx; linarith
    have h0 : ¬(pnl / tg ≥ 0) := not_le.mpr hr
    constructor
    · simp only [if_pos htg, if_neg h32, if_neg h1, if_neg h0]
    · simp only [if_pos htg, if_neg h32, if_neg h1, if_neg h0]
      exact max_le (by norm_num) (by linarith)

/-! ### C3: alert deduplication within 24 hours -/

/-- `countPair` distributes over list append. -/
theorem countPair_append (s l : List AlertRow) (name kind : String) :
    countPair (s ++ l) name kind = countPair s name kind + countPair l name kind := by
  simp [countPair, List.filter_append]

/-- A freshly inserted row for the pair counts exactly one. -/
theorem countPair_singleton_pair (name kind sev : String) (t : ℤ) :
    countPair [⟨name, kind, sev, t⟩] name kind = 1 := by
  simp [countPair]

/-- A row of another kind does not count for the pair. -/
theorem countPair_singleton_other (name kind k sev : String) (t : ℤ)
    (h : k ≠ kind) : countPair [⟨name, k, sev, t⟩] name kind = 0 := by
  simp [countPair, h]

/-- `recentDup` is true exactly when some stored row matches the pair
within the trailing 24 hours. -/
theorem recentDup_iff (now : ℤ) (name kind : String) (store : List AlertRow) :
    recentDup now name kind store = true ↔
      ∃ a ∈ store, a.name = name ∧ a.kind = kind ∧ now - 86400 < a.createdAt := by
  simp [recentDup]

/-- If the store holds no row at all for the pair, the duplicate check is
negative. -/
theorem recentDup_eq_false (now : ℤ) (name kind : String) (store : List AlertRow)
    (h : countPair store name kind = 0) : recentDup now name kind store = false := by
  rw [Bool.eq_false_iff]
  intro hd
  obtain ⟨a, ha, h1, h2, _⟩ := (recentDup_iff now name kind store).1 hd
  have hmem : a ∈ store.filter (fun a => decide (a.name = name ∧ a.kind = kind)) :=
    List.mem_filter.2 ⟨ha, by simp [h1, h2]⟩
  have hz : store.filter (fun a => decide (a.name = name ∧ a.kind = kind)) = [] :=
    List.length_eq_zero.mp h
  rw [hz] at hmem
  exact absurd hmem (List.not_mem_nil a)

/-- A positive duplicate check survives appending rows. -/
theorem recentDup_append_left (now : ℤ) (name kind : String) (s l : List AlertRow)
    (h : recentDup now name kind s = true) :
    recentDup now name kind (s ++ l) = true := by
  simp only [recentDup, List.any_append, Bool.or_eq_true]
  exact Or.inl h

/-- A 24-hour duplicate suppresses every rule of the pair's kind: the rule
loop of `_generate_alerts` leaves the pair's row count unchanged. -/
theorem genAlertsRules_count_dup (now : ℤ) (name kind : String)
    (vals : String → Option ℚ) :
    ∀ (rules : List AlertRule) (store : List AlertRow),
      recentDup now name kind store = true →
      countPair (genAlertsRules now name vals rules store) name kind =
        countPair store name kind := by
  intro rules
  induction rules with
  | nil => intro store _; rfl
  | cons r rest ih =>
    intro store h
    cases hv : vals r.field with
    | none =>
      rw [show genAlertsRules now name vals (r :: rest) store =
        genAlertsRules now name vals rest store by simp [genAlertsRules, hv]]
      exact ih store h
    | some v =>
      by_cases ht : if r.isGt then v > r.threshold else v < r.threshold
      · by_cases hd : recentDup now name r.kind store = true
        · rw [show genAlertsRules now name vals (r :: rest) store =
            genAlertsRules now name vals rest store by
              simp [genAlertsRules, hv, ht, hd]]
          exact ih store h
        · have hk : r.kind ≠ kind := by
            intro he; rw [he] at hd; exact hd h
          rw [show genAlertsRules now name vals (r :: rest) store =
            genAlertsRules now name vals rest
              (store ++ [⟨name, r.kind, r.severity, now⟩]) by
              simp [genAlertsRules, hv, ht, hd]]
          rw [ih _ (recentDup_append_left now name kind store _ h),
            countPair_append, countPair_singleton_other name kind r.kind r.severity now hk]
          omega
      · rw [show genAlertsRules now name vals (r :: rest) store =
          genAlertsRules now name vals rest store by simp [genAlertsRules, hv, ht]]
        exact ih store h

/-- The rule loop never shrinks the pair's row count. -/
theorem genAlertsRules_count_mono (now : ℤ) (name kind : String)
    (vals : String → Option ℚ) :
    ∀ (rules : List AlertRule) (store : List AlertRow),
      countPair store name kind ≤
        countPair (genAlertsRules now name vals rules store) name kind := by
  intro rules
  induction rules with
  | nil => intro store; exact le_refl _
  | cons r rest ih =>
    intro store
    cases hv : vals r.field with
    | none =>
      rw [show genAlertsRules now name vals (r :: rest) store =
        genAlertsRules now name vals rest store by simp [genAlertsRules, hv]]
      exact ih store
    | some v =>
      by_cases ht : if r.isGt then v > r.threshold else v < r.threshold
      · by_cases hd : recentDup now name r.kind store = true
        · rw [show genAlertsRules now name vals (r :: rest) store =
            genAlertsRules now name vals rest store by
              simp [genAlertsRules, hv, ht, hd]]
          exact ih store
        · rw [show genAlertsRules now name vals (r :: rest) store =
            genAlertsRules now name vals rest
              (store ++ [⟨name, r.kind, r.severity, now⟩]) by
              simp [genAlertsRules, hv, ht, hd]]
          calc countPair store name kind
              ≤ countPair (store ++ [⟨name, r.kind, r.severity, now⟩]) name kind := by
                rw [countPair_append]; omega
            _ ≤ _ := ih _
      · rw [show genAlertsRules now name vals (r :: rest) store =
          genAlertsRules now name vals rest store by simp [genAlertsRules, hv, ht]]
        exact ih store

/-- Starting from a store with no row for the pair, the rule loop inserts
at most one row for it. -/
theorem genAlertsRules_count_le_one (now : ℤ) (name kind : String)
    (vals : String → Option ℚ) :
    ∀ (rules : List AlertRule) (store : List AlertRow),
      countPair store name kind = 0 →
      countPair (genAlertsRules now name vals rules store) name kind ≤ 1 := by
  intro rules
  induction rules with
  | nil => intro store h; rw [show genAlertsRules now name vals [] store = store from rfl, h]; omega
  | cons r rest ih =>
    intro store h
    cases hv : vals r.field with
    | none =>
      rw [show genAlertsRules now name vals (r :: rest) store =
        genAlertsRules now name vals rest store by simp [genAlertsRules, hv]]
      exact ih store h
    | some v =>
      by_cases ht : if r.isGt then v > r.threshold else v < r.threshold
      · by_cases hd : recentDup now name r.kind store = true
        · rw [show genAlertsRules now name vals (r :: rest) store =
            genAlertsRules now name vals rest store by
              simp [genAlertsRules, hv, ht, hd]]
          exact ih store h
        · rw [show genAlertsRules now name vals (r :: rest) store =
            genAlertsRules now name vals rest
              (store ++ [⟨name, r.kind, r.severity, now⟩]) by
              simp [genAlertsRules, hv, ht, hd]]
          by_cases hk : r.kind = kind
          · have hc1 : countPair (store ++ [⟨name, r.kind, r.severity, now⟩]) name kind = 1 := by
              rw [countPair_append, h, hk, countPair_singleton_pair]
            have hdup : recentDup now name kind
                (store ++ [⟨name, r.kind, r.severity, now⟩]) = true := by
              rw [recentDup_iff]
              exact ⟨⟨name, r.kind, r.severity, now⟩,
                List.mem_append_right _ (List.mem_singleton.mpr rfl), rfl, hk,
                by show now - 86400 < now; omega⟩
            rw [genAlertsRules_count_dup now name kind vals rest _ hdup, hc1]
          · have hc0 : countPair (store ++ [⟨name, r.kind, r.severity, now⟩]) name kind = 0 := by
              rw [countPair_append, h, countPair_singleton_other name kind r.kind r.severity now hk]
            exact ih _ hc0
      · rw [show genAlertsRules now name vals (r :: rest) store =
          genAlertsRules now name vals rest store by simp [genAlertsRules, hv, ht]]
        exact ih store h

/-- Starting from a store with no row for the pair, the rule loop inserts
at least one row for it whenever some rule of that kind triggers. -/
theorem genAlertsRules_count_ge_one (now : ℤ) (name kind : String)
    (vals : String → Option ℚ) :
    ∀ (rules : List AlertRule) (store : List AlertRow),
      countPair store name kind = 0 →
      (∃ r ∈ rules, r.kind = kind ∧ ∃ v, vals r.field = some v ∧
        (if r.isGt then v > r.threshold else v < r.threshold)) →
      1 ≤ countPair (genAlertsRules now name vals rules store) name kind := by
  intro rules
  induction rules with
  | nil => intro store _ htr; simp at htr
  | cons r rest ih =>
    intro store h htr
    obtain ⟨r0, hr0, hk0, v0, hv0, ht0⟩ := htr
    rcases List.mem_cons.mp hr0 with he | hmem
    · subst he
      rw [show genAlertsRules now name vals (r0 :: rest) store =
          genAlertsRules now name vals rest
            (store ++ [⟨name, r0.kind, r0.severity, now⟩]) by
          simp [genAlertsRules, hv0, ht0,
            recentDup_eq_false now name r0.kind store (hk0 ▸ h)]]
      have hc1 : countPair (store ++ [⟨name, r0.kind, r0.severity, now⟩]) name kind = 1 := by
        rw [countPair_append, h, hk0, countPair_singleton_pair]
      have hm := genAlertsRules_count_mono now name kind vals rest
        (store ++ [⟨name, r0.kind, r0.severity, now⟩])
      omega
    · cases hv : vals r.field with
      | none =>
        rw [show genAlertsRules now name vals (r :: rest) store =
          genAlertsRules now name vals rest store by simp [genAlertsRules, hv]]
        exact ih store h ⟨r0, hmem, hk0, v0, hv0, ht0⟩
      | some v =>
        by_cases ht : if r.isGt then v > r.threshold else v < r.threshold
        · by_cases hd : recentDup now name r.kind store = true
          · rw [show genAlertsRules now name vals (r :: rest) store =
              genAlertsRules now name vals rest store by
                simp [genAlertsRules, hv, ht, hd]]
            exact ih store h ⟨r0, hmem, hk0, v0, hv0, ht0⟩
          · rw [show genAlertsRules now name vals (r :: rest) store =
              genAlertsRules now name vals rest
                (store ++ [⟨name, r.kind, r.severity, now⟩]) by
                simp [genAlertsRules, hv, ht, hd]]
            by_cases hk : r.kind = kind
            · have hc1 : countPair (store ++ [⟨name, r.kind, r.severity, now⟩]) name kind = 1 := by
                rw [countPair_append, h, hk, countPair_singleton_pair]
              have hm := genAlertsRules_count_mono now name kind vals rest
                (store ++ [⟨name, r.kind, r.severity, now⟩])
              omega
            · have hc0 : countPair (store ++ [⟨name, r.kind, r.severity, now⟩]) name kind = 0 := by
                rw [countPair_append, h, countPair_singleton_other name kind r.kind r.severity now hk]
              exact ih _ hc0 ⟨r0, hmem, hk0, v0, hv0, ht0⟩
        · rw [show genAlertsRules now name vals (r :: rest) store =
            genAlertsRules now name vals rest store by simp [genAlertsRules, hv, ht]]
          exact ih store h ⟨r0, hmem, hk0, v0, hv0, ht0⟩

/-- New rows inserted by the rule loop carry the current timestamp and the
signal's item name. -/
theorem genAlertsRules_append_spec (now : ℤ) (name : String)
    (vals : String → Option ℚ) :
    ∀ (rules : List AlertRule) (store : List AlertRow),
      ∃ l, genAlertsRules now name vals rules store = store ++ l ∧
        ∀ row ∈ l, row.name = name ∧ row.createdAt = now := by
  intro rules
  induction rules with
  | nil => intro store; exact ⟨[], by simp [genAlertsRules], by simp⟩
  | cons r rest ih =>
    intro store
    cases hv : vals r.field with
    | none =>
      rw [show genAlertsRules now name vals (r :: rest) store =
        genAlertsRules now name vals rest store by simp [genAlertsRules, hv]]
      exact ih store
    | some v =>
      by_cases ht : if r.isGt then v > r.threshold else v < r.threshold
      · by_cases hd : recentDup now name r.kind store = true
        · rw [show genAlertsRules now name vals (r :: rest) store =
            genAlertsRules now name vals rest store by
              simp [genAlertsRules, hv, ht, hd]]
          exact ih store
        · rw [show genAlertsRules now name vals (r :: rest) store =
            genAlertsRules now name vals rest
              (store ++ [⟨name, r.kind, r.severity, now⟩]) by
              simp [genAlertsRules, hv, ht, hd]]
          obtain ⟨l, hl, hrows⟩ := ih (store ++ [⟨name, r.kind, r.severity, now⟩])
          refine ⟨⟨name, r.kind, r.severity, now⟩ :: l, by rw [hl, List.append_assoc]; rfl, ?_⟩
          intro row hrow
          rcases List.mem_cons.mp hrow with he | hmem
          · rw [he]; exact ⟨rfl, rfl⟩
          · exact hrows row hmem
      · rw [show genAlertsRules now name vals (r :: rest) store =
          genAlertsRules now name vals rest store by simp [genAlertsRules, hv, ht]]
        exact ih store

/-- A 24-hour duplicate suppresses the quick-PnL loop for the pair's kind:
the pair's row count is unchanged. -/
theorem quickPnlLoop_count_dup (now : ℤ) (name kind : String) (pnl : ℚ) :
    ∀ (ths : List (ℚ × String × String)) (store : List AlertRow),
      recentDup now name kind store = true →
      countPair (quickPnlLoop now name pnl ths store) name kind =
        countPair store name kind := by
  intro ths
  induction ths with
  | nil => intro store _; rfl
  | cons t rest ih =>
    intro store h
    obtain ⟨thr, k, sev⟩ := t
    by_cases hp : pnl > thr
    · by_cases hd : recentDup now name k store = true
      · rw [show quickPnlLoop now name pnl ((thr, k, sev) :: rest) store =
          quickPnlLoop now name pnl rest store by simp [quickPnlLoop, hp, hd]]
        exact ih store h
      · have hk : k ≠ kind := by
          intro he; rw [he] at hd; exact hd h
        rw [show quickPnlLoop now name pnl ((thr, k, sev) :: rest) store =
          store ++ [⟨name, k, sev, now⟩] by simp [quickPnlLoop, hp, hd]]
        rw [countPair_append, countPair_singleton_other name kind k sev now hk]
        omega
    · rw [show quickPnlLoop now name pnl ((thr, k, sev) :: rest) store =
        quickPnlLoop now name pnl rest store by simp [quickPnlLoop, hp]]
      exact ih store h

/-- C3: for every item and alert kind, an Alert row of that (item, kind)
pair created within the preceding 24 hours makes both the full alert
generator and the lightweight quick-PnL variant suppress a new trigger
instead of inserting; hence triggering the same (item, kind) twice within
24 hours (full generator: any triggering rule of that kind; quick variant:
the matching profit threshold) leaves exactly one Alert row for the pair. -/
theorem C3_alert_dedup_24h :
    (∀ (now : ℤ) (name kind : String) (vals : String → Option ℚ) (pnl : ℚ)
       (store : List AlertRow),
       (∃ a ∈ store, a.name = name ∧ a.kind = kind ∧ now - 86400 < a.createdAt) →
       countPair (generateAlertsForSignal now name vals store) name kind =
         countPair store name kind ∧
       countPair (quickPnlForItem now name pnl store) name kind =
         countPair store name kind) ∧
    (∀ (t1 t2 : ℤ) (name kind : String) (vals : String → Option ℚ)
       (store : List AlertRow),
       countPair store name kind = 0 → t1 ≤ t2 → t2 < t1 + 86400 →
       (∃ r ∈ alertRules, r.kind = kind ∧ ∃ v, vals r.field = some v ∧
         (if r.isGt then v > r.threshold else v < r.threshold)) →
       countPair (generateAlertsForSignal t2 name vals
         (generateAlertsForSignal t1 name vals store)) name kind = 1) ∧
    (∀ (t1 t2 : ℤ) (name : String) (pnl : ℚ) (store : List AlertRow),
       t1 ≤ t2 → t2 < t1 + 86400 →
       (countPair store name "profit_100" = 0 → pnl > 100 →
         countPair (quickPnlForItem t2 name pnl (quickPnlForItem t1 name pnl store))
           name "profit_100" = 1) ∧
       (countPair store name "profit_50" = 0 → 50 < pnl → pnl ≤ 100 →
         countPair (quickPnlForItem t2 name pnl (quickPnlForItem t1 name pnl store))
           name "profit_50" = 1)) := by
  refine ⟨?_, ?_, ?_⟩
  · intro now name kind vals pnl store hex
    have hd : recentDup now name kind store = true := (recentDup_iff now name kind store).2 hex
    exact ⟨genAlertsRules_count_dup now name kind vals alertRules store hd,
      quickPnlLoop_count_dup now name kind pnl quickPnlThresholds store hd⟩
  · intro t1 t2 name kind vals store h0 h12 hw htr
    have hle := genAlertsRules_count_le_one t1 name kind vals alertRules store h0
    have hge := genAlertsRules_count_ge_one t1 name kind vals alertRules store h0 htr
    have hc1 : countPair (generateAlertsForSignal t1 name vals store) name kind = 1 :=
      le_antisymm hle hge
    obtain ⟨l, hl, hrows⟩ := genAlertsRules_append_spec t1 name vals alertRules store
    have hne : (generateAlertsForSignal t1 name vals store).filter
        (fun a => decide (a.name = name ∧ a.kind = kind)) ≠ [] := by
      intro hnil
      rw [countPair, hnil] at hc1
      exact absurd hc1 (by norm_num)
    obtain ⟨a, hafil⟩ := List.exists_mem_of_ne_nil _ hne
    obtain ⟨haS1, hprop⟩ := List.mem_filter.mp hafil
    obtain ⟨han, hak⟩ := of_decide_eq_true hprop
    have hamem : a ∈ store ++ l := by
      rw [← hl]
      exact haS1
    have hnotst : a ∉ store := by
      intro hin
      have hmem2 : a ∈ store.filter (fun a => decide (a.name = name ∧ a.kind = kind)) :=
        List.mem_filter.2 ⟨hin, by simp [han, hak]⟩
      rw [List.length_eq_zero.mp h0] at hmem2
      exact absurd hmem2 (List.not_mem_nil a)
    have hainl : a ∈ l := (List.mem_append.mp hamem).resolve_left hnotst
    have hat : a.createdAt = t1 := (hrows a hainl).2
    have hdup2 : recentDup t2 name kind (generateAlertsForSignal t1 name vals store) = true := by
      rw [recentDup_iff]
      exact ⟨a, haS1, han, hak, by rw [hat]; omega⟩
    rw [generateAlertsForSignal,
      genAlertsRules_count_dup t2 name kind vals alertRules _ hdup2]
    exact hc1
  · intro t1 t2 name pnl store h12 hw
    constructor
    · intro h0 h100
      have hd1 : recentDup t1 name "profit_100" store = false :=
        recentDup_eq_false t1 name "profit_100" store h0
      have e1 : quickPnlForItem t1 name pnl store =
          store ++ [⟨name, "profit_100", "critical", t1⟩] := by
        simp [quickPnlForItem, quickPnlThresholds, quickPnlLoop, hd1, h100]
      have hc1 : countPair (quickPnlForItem t1 name pnl store) name "profit_100" = 1 := by
        rw [e1, countPair_append, h0, countPair_singleton_pair]
      have hdup : recentDup t2 name "profit_100" (quickPnlForItem t1 name pnl store) = true := by
        rw [e1, recentDup_iff]
        exact ⟨⟨name, "profit_100", "critical", t1⟩,
          List.mem_append_right _ (List.mem_singleton.mpr rfl), rfl, rfl,
          by show t2 - 86400 < t1; omega⟩
      rw [show quickPnlForItem t2 name pnl (quickPnlForItem t1 name pnl store) =
        quickPnlLoop t2 name pnl quickPnlThresholds (quickPnlForItem t1 name pnl store)
        from rfl]
      rw [quickPnlLoop_count_dup t2 name "profit_100" pnl quickPnlThresholds _ hdup]
      exact hc1
    · intro h0 h50 hle100
      have hn100 : ¬(pnl > 100) := not_lt.mpr hle100
      have hd1 : recentDup t1 name "profit_50" store = false :=
        recentDup_eq_false t1 name "profit_50" store h0
      have e1 : quickPnlForItem t1 name pnl store =
          store ++ [⟨name, "profit_50", "warning", t1⟩] := by
        simp [quickPnlForItem, quickPnlThresholds, quickPnlLoop, hn100, h50, hd1]
      have hc1 : countPair (quickPnlForItem t1 name pnl store) name "profit_50" = 1 := by
        rw [e1, countPair_append, h0, countPair_singleton_pair]
      have hdup : recentDup t2 name "profit_50" (quickPnlForItem t1 name pnl store) = true := by
        rw [e1, recentDup_iff]
        exact ⟨⟨name, "profit_50", "warning", t1⟩,
          List.mem_append_right _ (List.mem_singleton.mpr rfl), rfl, rfl,
          by show t2 - 86400 < t1; omega⟩
      rw [show quickPnlForItem t2 name pnl (quickPnlForItem t1 name pnl store) =
        quickPnlLoop t2 name pnl quickPnlThresholds (quickPnlForItem t1 name pnl store)
        from rfl]
      rw [quickPnlLoop_count_dup t2 name "profit_50" pnl quickPnlThresholds _ hdup]
      exact hc1

/-- C3 witness: a 24h-old duplicate suppresses the full generator; a
triggering RSI-overbought rule fired twice one hour apart leaves one row;
a 120% quick-PnL profit fired twice one hour apart leaves one row. -/
theorem C3_alert_dedup_24h_witness :
    countPair (generateAlertsForSignal 0 "A" (fun _ => none)
      [⟨"A", "near_ath", "warning", -100⟩]) "A" "near_ath" =
      countPair [⟨"A", "near_ath", "warning", -100⟩] "A" "near_ath" ∧
    countPair (generateAlertsForSignal 3600 "A"
      (fun f => if f = "rsi_14" then some 80 else none)
      (generateAlertsForSignal 0 "A"
        (fun f => if f = "rsi_14" then some 80 else none) []))
      "A" "rsi_overbought" = 1 ∧
    countPair (quickPnlForItem 3600 "A" 120 (quickPnlForItem 0 "A" 120 []))
      "A" "profit_100" = 1 := by
  refine ⟨?_, ?_, ?_⟩
  · exact (C3_alert_dedup_24h.1 0 "A" "near_ath" (fun _ => none) 0 _
      ⟨⟨"A", "near_ath", "warning", -100⟩, List.mem_singleton.mpr rfl, rfl, rfl,
        by show (0 : ℤ) - 86400 < -100; norm_num⟩).1
  · exact C3_alert_dedup_24h.2.1 0 3600 "A" "rsi_overbought" _ [] rfl
      (by norm_num) (by norm_num)
      ⟨⟨"rsi_overbought", "warning", "rsi_14", true, 75⟩, by simp [alertRules], rfl,
        80, by simp, by norm_num⟩
  · exact (C3_alert_dedup_24h.2.2 0 3600 "A" 120 [] (by norm_num) (by norm_num)).1
      rfl (by norm_num)

/-! ### C2 and C6: the Snapshot Aggregator -/

/-- Lookup in the empty store. -/
theorem lookupBar_nil (k : BarKey) : lookupBar [] k = none := rfl

/-- Lookup steps over a cons cell. -/
theorem lookupBar_cons (p : BarKey × Bar) (l : List (BarKey × Bar)) (k : BarKey) :
    lookupBar (p :: l) k = if p.1 = k then some p.2 else lookupBar l k := by
  by_cases h : p.1 = k <;> simp [lookupBar, List.find?_cons, h]

/-- An upsert makes its key hold its value. -/
theorem lookupBar_upsert_self (k : BarKey) (v : Bar) (s : List (BarKey × Bar)) :
    lookupBar (upsertBar k v s) k = some v := by
  induction s with
  | nil => simp [upsertBar, lookupBar_cons, lookupBar_nil]
  | cons p rest ih =>
    by_cases hp : p.1 = k
    · simp [upsertBar, hp, lookupBar_cons]
    · simp [upsertBar, hp, lookupBar_cons, ih]

/-- An upsert leaves other keys untouched. -/
theorem lookupBar_upsert_ne (k : BarKey) (v : Bar) (s : List (BarKey × Bar))
    (k2 : BarKey) (h : k2 ≠ k) :
    lookupBar (upsertBar k v s) k2 = lookupBar s k2 := by
  induction s with
  | nil => simp [upsertBar, lookupBar_cons, lookupBar_nil, Ne.symm h]
  | cons p rest ih =>
    by_cases hp : p.1 = k
    · have hp2 : p.1 ≠ k2 := by rw [hp]; exact Ne.symm h
      simp [upsertBar, hp, lookupBar_cons, Ne.symm h, hp2]
    · simp [upsertBar, hp, lookupBar_cons, ih]

/-- Upserting the value a key already holds is a no-op, as a list. -/
theorem upsertBar_of_lookup (k : BarKey) (v : Bar) (s : List (BarKey × Bar))
    (h : lookupBar s k = some v) : upsertBar k v s = s := by
  induction s with
  | nil => simp [lookupBar_nil] at h
  | cons p rest ih =>
    rw [lookupBar_cons] at h
    by_cases hp : p.1 = k
    · rw [if_pos hp] at h
      injection h with hv
      simp only [upsertBar, if_pos hp]
      rw [← hp, ← hv]
    · rw [if_neg hp] at h
      simp [upsertBar, hp, ih h]

/-- `applyRows` over the empty row list. -/
theorem applyRows_nil (s : List (BarKey × Bar)) : applyRows [] s = s := rfl

/-- `applyRows` folds one upsert at a time. -/
theorem applyRows_cons (r : BarKey × Bar) (rows : List (BarKey × Bar))
    (s : List (BarKey × Bar)) :
    applyRows (r :: rows) s = applyRows rows (upsertBar r.1 r.2 s) := rfl

/-- Keys not written by any row keep their binding. -/
theorem lookupBar_applyRows_not_mem (rows : List (BarKey × Bar)) :
    ∀ (s : List (BarKey × Bar)) (k : BarKey), (∀ kv ∈ rows, kv.1 ≠ k) →
      lookupBar (applyRows rows s) k = lookupBar s k := by
  induction rows with
  | nil => intro s k _; rfl
  | cons r rest ih =>
    intro s k h
    rw [applyRows_cons, ih _ k (fun kv hkv => h kv (List.mem_cons_of_mem _ hkv)),
      lookupBar_upsert_ne _ _ _ _ (Ne.symm (h r (List.mem_cons_self r rest)))]

/-- With pairwise distinct keys, each written row is what its key holds
afterwards. -/
theorem lookupBar_applyRows_mem (rows : List (BarKey × Bar)) :
    ∀ (s : List (BarKey × Bar)) (kv : BarKey × Bar),
      ((rows.map Prod.fst).Nodup) → kv ∈ rows →
      lookupBar (applyRows rows s) kv.1 = some kv.2 := by
  induction rows with
  | nil => intro s kv _ h; simp at h
  | cons r rest ih =>
    intro s kv hnd hmem
    rw [List.map_cons, List.nodup_cons] at hnd
    rw [applyRows_cons]
    rcases List.mem_cons.mp hmem with he | hm
    · subst he
      have hnot : ∀ kv2 ∈ rest, kv2.1 ≠ kv.1 := by
        intro kv2 hkv2 heq
        exact hnd.1 (heq ▸ List.mem_map_of_mem Prod.fst hkv2)
      rw [lookupBar_applyRows_not_mem rest _ _ hnot, lookupBar_upsert_self]
    · exact ih _ kv hnd.2 hm

/-- Rows whose key already holds their value leave the store unchanged. -/
theorem applyRows_fix (rows : List (BarKey × Bar)) :
    ∀ (s : List (BarKey × Bar)), (∀ kv ∈ rows, lookupBar s kv.1 = some kv.2) →
      applyRows rows s = s := by
  induction rows with
  | nil => intro s _; rfl
  | cons r rest ih =>
    intro s h
    rw [applyRows_cons, upsertBar_of_lookup r.1 r.2 s (h r (List.mem_cons_self r rest))]
    exact ih s (fun kv hkv => h kv (List.mem_cons_of_mem _ hkv))

/-- Re-applying the same distinct-keyed rows is absorbed. -/
theorem applyRows_self_nodup (rows : List (BarKey × Bar)) :
    ((rows.map Prod.fst).Nodup) → ∀ (s : List (BarKey × Bar)),
      applyRows rows (applyRows rows s) = applyRows rows s := by
  induction rows with
  | nil => intro _ s; rfl
  | cons r rest ih =>
    intro hnd s
    rw [List.map_cons, List.nodup_cons] at hnd
    rw [applyRows_cons, applyRows_cons]
    have hnot : ∀ kv ∈ rest, kv.1 ≠ r.1 := by
      intro kv hkv heq
      exact hnd.1 (heq ▸ List.mem_map_of_mem Prod.fst hkv)
    have hlk : lookupBar (applyRows rest (upsertBar r.1 r.2 s)) r.1 = some r.2 := by
      rw [lookupBar_applyRows_not_mem rest _ _ hnot, lookupBar_upsert_self]
    rw [upsertBar_of_lookup _ _ _ hlk]
    exact ih hnd.2 _

/-- `realBars` steps over a cons cell. -/
theorem realBars_cons (p : BarKey × Bar) (l : List (BarKey × Bar)) (d : ℕ) :
    realBars (p :: l) d =
      if p.1.date = d ∧ p.1.platform ≠ "ALL" then p :: realBars l d else realBars l d := by
  by_cases h : p.1.date = d ∧ p.1.platform ≠ "ALL" <;> simp [realBars, List.filter_cons, h]

/-- Upserting an "ALL"-platform key does not change the date's
real-platform rows. -/
theorem realBars_upsert_all (k : BarKey) (v : Bar) (d : ℕ) (h : k.platform = "ALL") :
    ∀ (s : List (BarKey × Bar)), realBars (upsertBar k v s) d = realBars s d := by
  intro s
  induction s with
  | nil =>
    show realBars [(k, v)] d = realBars [] d
    rw [realBars_cons]
    simp [h, realBars]
  | cons p rest ih =>
    by_cases hp : p.1 = k
    · simp only [upsertBar, if_pos hp]
      rw [realBars_cons, realBars_cons]
      simp [h, hp]
    · simp only [upsertBar, if_neg hp]
      rw [realBars_cons, realBars_cons, ih]

/-- Writing only "ALL"-platform rows leaves the date's real-platform rows
unchanged. -/
theorem realBars_applyRows_all (d : ℕ) :
    ∀ (rows : List (BarKey × Bar)) (s : List (BarKey × Bar)),
      (∀ kv ∈ rows, kv.1.platform = "ALL") →
      realBars (applyRows rows s) d = realBars s d := by
  intro rows
  induction rows with
  | nil => intro s _; rfl
  | cons r rest ih =>
    intro s hall
    rw [applyRows_cons, ih _ (fun kv hkv => hall kv (List.mem_cons_of_mem _ hkv)),
      realBars_upsert_all r.1 r.2 d (hall r (List.mem_cons_self r rest)) s]

/-- The per-platform rows have pairwise distinct keys. -/
theorem phase1Rows_keys_nodup (snaps : List Snap) (d : ℕ) :
    ((phase1Rows snaps d).map Prod.fst).Nodup := by
  rw [phase1Rows, List.map_map]
  apply List.Nodup.map
  · intro a b hab
    cases a; cases b
    simpa [BarKey.mk.injEq, Prod.mk.injEq] using hab
  · exact List.nodup_dedup _

/-- The synthetic rows have pairwise distinct keys. -/
theorem allRows_keys_nodup (s : List (BarKey × Bar)) (d : ℕ) :
    ((allRows s d).map Prod.fst).Nodup := by
  rw [allRows, List.map_map]
  apply List.Nodup.map
  · intro a b hab
    simpa [BarKey.mk.injEq] using hab
  · exact List.nodup_dedup _

/-- Per-platform keys carry a platform seen in the snapshots. -/
theorem phase1Rows_platform (snaps : List Snap) (d : ℕ)
    (hplat : ∀ t ∈ snaps, t.platform ≠ "ALL") :
    ∀ kv ∈ phase1Rows snaps d, kv.1.platform ≠ "ALL" := by
  intro kv hkv
  obtain ⟨kp, hkp, rfl⟩ := List.mem_map.mp hkv
  show kp.2 ≠ "ALL"
  obtain ⟨t, ht, hte⟩ := List.mem_map.mp (List.mem_dedup.mp hkp)
  have h2 : t ∈ snaps := (List.mem_filter.mp ht).1
  rw [← hte]
  exact hplat t h2

/-- Synthetic keys carry the "ALL" platform. -/
theorem allRows_platform (s : List (BarKey × Bar)) (d : ℕ) :
    ∀ kv ∈ allRows s d, kv.1.platform = "ALL" := by
  intro kv hkv
  obtain ⟨item, _, rfl⟩ := List.mem_map.mp hkv
  rfl

/-- The synthetic rows only depend on the date's real-platform rows. -/
theorem allRows_congr (s1 s2 : List (BarKey × Bar)) (d : ℕ)
    (h : realBars s1 d = realBars s2 d) : allRows s1 d = allRows s2 d := by
  rw [allRows, allRows, h]

/-- C2: running `aggregate_daily` twice for the same target date with the
snapshot table unchanged leaves the bar store in the same state as running
it once (full list equality of the store, hence every DailyBar row is
numerically identical after the second run). -/
theorem C2_aggregate_daily_idempotent (snaps : List Snap) (d : ℕ)
    (s : List (BarKey × Bar)) (hplat : ∀ t ∈ snaps, t.platform ≠ "ALL") :
    aggregate_daily snaps d (aggregate_daily snaps d s) = aggregate_daily snaps d s := by
  by_cases hP : (phase1Rows snaps d).isEmpty = true
  · rw [aggregate_daily, if_pos hP, aggregate_daily, if_pos hP]
  · have key : ∀ X, X = applyRows (allRows (applyRows (phase1Rows snaps d) s) d)
        (applyRows (phase1Rows snaps d) s) → aggregate_daily snaps d X = X := by
      intro X hX
      rw [aggregate_daily, if_neg hP]
      show applyRows (allRows (applyRows (phase1Rows snaps d) X) d)
        (applyRows (phase1Rows snaps d) X) = X
      have hfix : applyRows (phase1Rows snaps d) X = X := by
        apply applyRows_fix
        intro kv hkv
        rw [hX]
        have hnotA : ∀ kv2 ∈ allRows (applyRows (phase1Rows snaps d) s) d, kv2.1 ≠ kv.1 := by
          intro kv2 hkv2 heq
          have h1 := allRows_platform _ d kv2 hkv2
          rw [heq] at h1
          exact phase1Rows_platform snaps d hplat kv hkv h1
        rw [lookupBar_applyRows_not_mem _ _ _ hnotA]
        exact lookupBar_applyRows_mem _ _ _ (phase1Rows_keys_nodup snaps d) hkv
      rw [hfix]
      subst hX
      rw [allRows_congr _ _ d (realBars_applyRows_all d _ _ (allRows_platform _ d))]
      exact applyRows_self_nodup _ (allRows_keys_nodup _ d) _
    rw [show aggregate_daily snaps d s =
      applyRows (allRows (applyRows (phase1Rows snaps d) s) d)
        (applyRows (phase1Rows snaps d) s) by rw [aggregate_daily, if_neg hP]]
    exact key _ rfl

/-- C2 witness: the aggregator applied twice to the example ticks. -/
theorem C2_aggregate_daily_idempotent_witness :
    aggregate_daily exSnaps 0 (aggregate_daily exSnaps 0 []) =
      aggregate_daily exSnaps 0 [] := by
  apply C2_aggregate_daily_idempotent
  intro t ht
  fin_cases ht <;> simp [exSnaps]

/-- `earliestSnap` is `none` only on the empty group. -/
theorem earliestSnap_eq_none (l : List Snap) : earliestSnap l = none ↔ l = [] := by
  cases l with
  | nil => simp [earliestSnap]
  | cons a rest =>
    simp only [earliestSnap]
    cases earliestSnap rest with
    | none => simp
    | some u => by_cases hc : a.minute ≤ u.minute <;> simp [hc]

/-- The earliest snapshot is a member of minimal minute. -/
theorem earliestSnap_spec (l : List Snap) (h : l ≠ []) :
    ∃ t, earliestSnap l = some t ∧ t ∈ l ∧ ∀ u ∈ l, t.minute ≤ u.minute := by
  induction l with
  | nil => exact absurd rfl h
  | cons a rest ih =>
    cases hres : earliestSnap rest with
    | none =>
      have hrnil : rest = [] := (earliestSnap_eq_none rest).mp hres
      subst hrnil
      refine ⟨a, by simp [earliestSnap], List.mem_singleton.mpr rfl, ?_⟩
      intro u hu
      rw [List.mem_singleton.mp hu]
    | some t =>
      have hrne : rest ≠ [] := by
        intro hnil
        rw [hnil] at hres
        simp [earliestSnap] at hres
      obtain ⟨t2, ht2, htm, hmin⟩ := ih hrne
      rw [hres] at ht2
      injection ht2 with ht2e
      subst ht2e
      by_cases hc : a.minute ≤ t.minute
      · refine ⟨a, by simp [earliestSnap, hres, hc], List.mem_cons_self a rest, ?_⟩
        intro u hu
        rcases List.mem_cons.mp hu with rfl | hu2
        · exact le_refl _
        · exact le_trans hc (hmin u hu2)
      · refine ⟨t, by simp [earliestSnap, hres, hc], List.mem_cons_of_mem _ htm, ?_⟩
        intro u hu
        rcases List.mem_cons.mp hu with rfl | hu2
        · exact le_of_lt (not_le.mp hc)
        · exact hmin u hu2

/-- `latestSnap` is `none` only on the empty group. -/
theorem latestSnap_eq_none (l : List Snap) : latestSnap l = none ↔ l = [] := by
  cases l with
  | nil => simp [latestSnap]
  | cons a rest =>
    simp only [latestSnap]
    cases latestSnap rest with
    | none => simp
    | some u => by_cases hc : a.minute ≥ u.minute <;> simp [hc]

/-- The latest snapshot is a member of maximal minute. -/
theorem latestSnap_spec (l : List Snap) (h : l ≠ []) :
    ∃ t, latestSnap l = some t ∧ t ∈ l ∧ ∀ u ∈ l, u.minute ≤ t.minute := by
  induction l with
  | nil => exact absurd rfl h
  | cons a rest ih =>
    cases hres : latestSnap rest with
    | none =>
      have hrnil : rest = [] := (latestSnap_eq_none rest).mp hres
      subst hrnil
      refine ⟨a, by simp [latestSnap], List.mem_singleton.mpr rfl, ?_⟩
      intro u hu
      rw [List.mem_singleton.mp hu]
    | some t =>
      have hrne : rest ≠ [] := by
        intro hnil
        rw [hnil] at hres
        simp [latestSnap] at hres
      obtain ⟨t2, ht2, htm, hmax⟩ := ih hrne
      rw [hres] at ht2
      injection ht2 with ht2e
      subst ht2e
      by_cases hc : a.minute ≥ t.minute
      · refine ⟨a, by simp [latestSnap, hres, hc], List.mem_cons_self a rest, ?_⟩
        intro u hu
        rcases List.mem_cons.mp hu with rfl | hu2
        · exact le_refl _
        · exact le_trans (hmax u hu2) hc
      · refine ⟨t, by simp [latestSnap, hres, hc], List.mem_cons_of_mem _ htm, ?_⟩
        intro u hu
        rcases List.mem_cons.mp hu with rfl | hu2
        · exact le_of_lt (not_le.mp hc)
        · exact hmax u hu2

/-- The left max-fold stays inside the fed elements. -/
theorem foldl_max_mem (x : ℚ) (xs : List ℚ) : xs.foldl max x ∈ x :: xs := by
  induction xs generalizing x with
  | nil => simp
  | cons y ys ih =>
    rcases List.mem_cons.mp (ih (max x y)) with he | hm
    · rw [List.foldl_cons, he]
      rcases max_choice x y with h1 | h1 <;> rw [h1]
      · exact List.mem_cons_self _ _
      · exact List.mem_cons_of_mem _ (List.mem_cons_self _ _)
    · rw [List.foldl_cons]
      exact List.mem_cons_of_mem _ (List.mem_cons_of_mem _ hm)

/-- The left max-fold bounds every fed element. -/
theorem foldl_max_le (x : ℚ) (xs : List ℚ) : ∀ q ∈ x :: xs, q ≤ xs.foldl max x := by
  induction xs generalizing x with
  | nil =>
    intro q hq
    rw [List.mem_singleton.mp hq]
    exact le_refl _
  | cons y ys ih =>
    intro q hq
    rw [List.foldl_cons]
    rcases List.mem_cons.mp hq with rfl | hq2
    · exact le_trans (le_max_left q y) (ih (max q y) _ (List.mem_cons_self _ _))
    · rcases List.mem_cons.mp hq2 with rfl | hq3
      · exact le_trans (le_max_right x q) (ih (max x q) _ (List.mem_cons_self _ _))
      · exact ih (max x y) q (List.mem_cons_of_mem _ hq3)

/-- The left min-fold stays inside the fed elements. -/
theorem foldl_min_mem (x : ℚ) (xs : List ℚ) : xs.foldl min x ∈ x :: xs := by
  induction xs generalizing x with
  | nil => simp
  | cons y ys ih =>
    rcases List.mem_cons.mp (ih (min x y)) with he | hm
    · rw [List.foldl_cons, he]
      rcases min_choice x y with h1 | h1 <;> rw [h1]
      · exact List.mem_cons_self _ _
      · exact List.mem_cons_of_mem _ (List.mem_cons_self _ _)
    · rw [List.foldl_cons]
      exact List.mem_cons_of_mem _ (List.mem_cons_of_mem _ hm)

/-- The left min-fold is below every fed element. -/
theorem foldl_min_le (x : ℚ) (xs : List ℚ) : ∀ q ∈ x :: xs, xs.foldl min x ≤ q := by
  induction xs generalizing x with
  | nil =>
    intro q hq
    rw [List.mem_singleton.mp hq]
    exact le_refl _
  | cons y ys ih =>
    intro q hq
    rw [List.foldl_cons]
    rcases List.mem_cons.mp hq with rfl | hq2
    · exact le_trans (ih (min q y) _ (List.mem_cons_self _ _)) (min_le_left q y)
    · rcases List.mem_cons.mp hq2 with rfl | hq3
      · exact le_trans (ih (min x q) _ (List.mem_cons_self _ _)) (min_le_right x q)
      · exact ih (min x y) q (List.mem_cons_of_mem _ hq3)

/-- `optMaxQ` of a non-degenerate column is its maximum non-null value. -/
theorem optMaxQ_spec (l : List (Option ℚ)) (h : l.filterMap id ≠ []) :
    ∃ m, optMaxQ l = some m ∧ m ∈ l.filterMap id ∧ ∀ q ∈ l.filterMap id, q ≤ m := by
  cases hfm : l.filterMap id with
  | nil => exact absurd hfm h
  | cons x xs =>
    refine ⟨xs.foldl max x, ?_, ?_, ?_⟩
    · rw [optMaxQ, hfm]
    · exact foldl_max_mem x xs
    · exact foldl_max_le x xs

/-- `optMinQ` of a non-degenerate column is its minimum non-null value. -/
theorem optMinQ_spec (l : List (Option ℚ)) (h : l.filterMap id ≠ []) :
    ∃ m, optMinQ l = some m ∧ m ∈ l.filterMap id ∧ ∀ q ∈ l.filterMap id, m ≤ q := by
  cases hfm : l.filterMap id with
  | nil => exact absurd hfm h
  | cons x xs =>
    refine ⟨xs.foldl min x, ?_, ?_, ?_⟩
    · rw [optMinQ, hfm]
    · exact foldl_min_mem x xs
    · exact foldl_min_le x xs

/-- C6: for every (item, platform) with a valid snapshot on the target
date, `aggregate_daily` writes a bar whose open is the sell price of the
earliest valid snapshot of the day, close the latest, high the maximum and
low the minimum; and it writes one synthetic "ALL" bar per item taking
min(open), min(close), max(high), min(low) and the summed counts over that
date's real-platform bars (the bar store after the per-platform phase). -/
theorem C6_aggregate_ohlc (snaps : List Snap) (d : ℕ) (s : List (BarKey × Bar))
    (item pf : String)
    (hplat : ∀ t ∈ snaps, t.platform ≠ "ALL")
    (hne : validGroup snaps d item pf ≠ []) :
    (∃ b, lookupBar (aggregate_daily snaps d s) ⟨item, pf, d⟩ = some b ∧
      (∃ t ∈ validGroup snaps d item pf,
        (∀ u ∈ validGroup snaps d item pf, t.minute ≤ u.minute) ∧
        b.openPrice = t.sellPrice) ∧
      (∃ t ∈ validGroup snaps d item pf,
        (∀ u ∈ validGroup snaps d item pf, u.minute ≤ t.minute) ∧
        b.closePrice = t.sellPrice) ∧
      (∃ hi, b.highPrice = some hi ∧
        hi ∈ (validGroup snaps d item pf).filterMap Snap.sellPrice ∧
        ∀ q ∈ (validGroup snaps d item pf).filterMap Snap.sellPrice, q ≤ hi) ∧
      (∃ lo, b.lowPrice = some lo ∧
        lo ∈ (validGroup snaps d item pf).filterMap Snap.sellPrice ∧
        ∀ q ∈ (validGroup snaps d item pf).filterMap Snap.sellPrice, lo ≤ q)) ∧
    lookupBar (aggregate_daily snaps d s) ⟨item, "ALL", d⟩ =
      some (allBar (realBars (applyRows (phase1Rows snaps d) s) d) item) := by
  obtain ⟨t0, ht0⟩ := List.exists_mem_of_ne_nil _ hne
  obtain ⟨ht0s, ht0props⟩ := List.mem_filter.mp ht0
  obtain ⟨ht0d, ht0i, ht0p, ht0price⟩ := of_decide_eq_true ht0props
  have hpf : pf ≠ "ALL" := by
    rw [← ht0p]
    exact hplat t0 ht0s
  have hmemK : (item, pf) ∈ phase1Keys snaps d := by
    rw [phase1Keys]
    apply List.mem_dedup.mpr
    refine List.mem_map.mpr ⟨t0, List.mem_filter.mpr ⟨ht0s, by simp [ht0d, ht0price]⟩, ?_⟩
    rw [ht0i, ht0p]
  have hkv : ((⟨item, pf, d⟩ : BarKey), groupBar snaps d item pf) ∈ phase1Rows snaps d := by
    rw [phase1Rows]
    exact List.mem_map.mpr ⟨(item, pf), hmemK, rfl⟩
  have hPne : ¬(phase1Rows snaps d).isEmpty = true := by
    intro hemp
    rw [List.isEmpty_iff] at hemp
    rw [hemp] at hkv
    exact absurd hkv (List.not_mem_nil _)
  have e_once : aggregate_daily snaps d s =
      applyRows (allRows (applyRows (phase1Rows snaps d) s) d)
        (applyRows (phase1Rows snaps d) s) := by
    rw [aggregate_daily, if_neg hPne]
  have hlook1 : lookupBar (applyRows (phase1Rows snaps d) s) ⟨item, pf, d⟩ =
      some (groupBar snaps d item pf) :=
    lookupBar_applyRows_mem _ _ _ (phase1Rows_keys_nodup snaps d) hkv
  have hfm : ((validGroup snaps d item pf).map Snap.sellPrice).filterMap id =
      (validGroup snaps d item pf).filterMap Snap.sellPrice := by
    rw [List.filterMap_map]
    rfl
  have hfmne : ((validGroup snaps d item pf).map Snap.sellPrice).filterMap id ≠ [] := by
    rw [hfm]
    obtain ⟨q, hq⟩ := Option.ne_none_iff_exists.mp ht0price
    exact List.ne_nil_of_mem (List.mem_filterMap.mpr ⟨t0, ht0, hq.symm⟩)
  constructor
  · have hnotA : ∀ kv2 ∈ allRows (applyRows (phase1Rows snaps d) s) d,
        kv2.1 ≠ (⟨item, pf, d⟩ : BarKey) := by
      intro kv2 hkv2 heq
      have h1 := allRows_platform _ d kv2 hkv2
      rw [heq] at h1
      exact hpf h1
    have hlook : lookupBar (aggregate_daily snaps d s) ⟨item, pf, d⟩ =
        some (groupBar snaps d item pf) := by
      rw [e_once, lookupBar_applyRows_not_mem _ _ _ hnotA]
      exact hlook1
    refine ⟨groupBar snaps d item pf, hlook, ?_, ?_, ?_, ?_⟩
    · obtain ⟨t, hts, htm, hmin⟩ := earliestSnap_spec _ hne
      refine ⟨t, htm, hmin, ?_⟩
      show (earliestSnap (validGroup snaps d item pf)).bind Snap.sellPrice = t.sellPrice
      rw [hts]
      rfl
    · obtain ⟨t, hts, htm, hmax⟩ := latestSnap_spec _ hne
      refine ⟨t, htm, hmax, ?_⟩
      show (latestSnap (validGroup snaps d item pf)).bind Snap.sellPrice = t.sellPrice
      rw [hts]
      rfl
    · obtain ⟨m, hm, hmem, hbound⟩ := optMaxQ_spec _ hfmne
      rw [hfm] at hmem hbound
      exact ⟨m, hm, hmem, hbound⟩
    · obtain ⟨m, hm, hmem, hbound⟩ := optMinQ_spec _ hfmne
      rw [hfm] at hmem hbound
      exact ⟨m, hm, hmem, hbound⟩
  · have hrowmem : ((⟨item, pf, d⟩ : BarKey), groupBar snaps d item pf) ∈
        applyRows (phase1Rows snaps d) s := by
      obtain ⟨p, hp, hp2⟩ := Option.map_eq_some'.mp hlook1
      have hpm := List.mem_of_find?_eq_some hp
      have hpk0 := List.find?_some hp
      have hpk : p.1 = (⟨item, pf, d⟩ : BarKey) := by simpa using hpk0
      have : p = ((⟨item, pf, d⟩ : BarKey), groupBar snaps d item pf) := by
        cases p
        simp only [Prod.mk.injEq]
        exact ⟨hpk, hp2⟩
      rw [← this]
      exact hpm
    have hreal : ((⟨item, pf, d⟩ : BarKey), groupBar snaps d item pf) ∈
        realBars (applyRows (phase1Rows snaps d) s) d := by
      apply List.mem_filter.mpr
      exact ⟨hrowmem, by simp [hpf]⟩
    have hitem : item ∈ ((realBars (applyRows (phase1Rows snaps d) s) d).map
        (fun p => p.1.item)).dedup := by
      apply List.mem_dedup.mpr
      exact List.mem_map.mpr ⟨_, hreal, rfl⟩
    have hkvAll : ((⟨item, "ALL", d⟩ : BarKey),
        allBar (realBars (applyRows (phase1Rows snaps d) s) d) item) ∈
        allRows (applyRows (phase1Rows snaps d) s) d := by
      rw [allRows]
      exact List.mem_map.mpr ⟨item, hitem, rfl⟩
    rw [e_once]
    exact lookupBar_applyRows_mem _ _ _ (allRows_keys_nodup _ d) hkvAll

/-- C6 witness: the spec's example — ticks with time-ordered sell prices
[10, 12, 9, 11] for one item/platform/date yield a bar with open 10,
close 11, high 12, low 9, and a synthetic "ALL" bar with the same values. -/
theorem C6_aggregate_ohlc_witness :
    lookupBar (aggregate_daily exSnaps 0 []) ⟨"A", "B", 0⟩ =
      some ⟨some 10, some 11, some 12, some 9, none, none⟩ ∧
    lookupBar (aggregate_daily exSnaps 0 []) ⟨"A", "ALL", 0⟩ =
      some (allBar (realBars (applyRows (phase1Rows exSnaps 0) []) 0) "A") ∧
    allBar (realBars (applyRows (phase1Rows exSnaps 0) []) 0) "A" =
      ⟨some 10, some 11, some 12, some 9, none, none⟩ := by
  refine ⟨?_, (C6_aggregate_ohlc exSnaps 0 [] "A" "B"
    (by intro t ht; fin_cases ht <;> simp [exSnaps])
    (by simp [validGroup, exSnaps])).2, ?_⟩
  · decide
  · decide

/-! ### C5: RSI refinement against the Wilder reference definition -/

/-- Unfolding lemma: one smoothing step of `wilderSmooth`. -/
theorem wilderSmooth_cons (p : ℕ) (seed x : ℚ) (xs : List ℚ) :
    wilderSmooth p seed (x :: xs) =
      wilderSmooth p ((seed * ((p : ℚ) - 1) + x) / p) xs := rfl

/-- The paired fold of the Python RSI loop equals the two independent
Wilder smoothings, for equal-length gain/loss lists. -/
theorem rsi_fold_eq (period : ℕ) (gains : List ℚ) :
    ∀ (losses : List ℚ) (a b : ℚ), gains.length = losses.length →
      (gains.zip losses).foldl
        (fun (p : ℚ × ℚ) gl =>
          ((p.1 * ((period : ℚ) - 1) + gl.1) / period,
           (p.2 * ((period : ℚ) - 1) + gl.2) / period))
        (a, b) =
      (wilderSmooth period a gains, wilderSmooth period b losses) := by
  induction gains with
  | nil =>
    intro losses a b h
    cases losses with
    | nil => rfl
    | cons y ys => simp at h
  | cons x xs ih =>
    intro losses a b h
    cases losses with
    | nil => simp at h
    | cons y ys =>
      simp only [List.zip_cons_cons, List.foldl_cons, wilderSmooth_cons]
      exact ih ys _ _ (by simpa using h)

/-- `calc_rsi` computes exactly the spec's Wilder reference `rsiSpec`. -/
theorem calc_rsi_eq_rsiSpec (closes : List ℚ) (period : ℕ) :
    calc_rsi closes period = rsiSpec closes period := by
  by_cases h : closes.length < period + 1
  · simp [calc_rsi, rsiSpec, h]
  · simp only [calc_rsi, rsiSpec, if_neg h]
    rw [rsi_fold_eq period _ _ _ _ (by simp)]
    rfl

/-- Wilder smoothing of non-negative inputs from a non-negative seed stays
non-negative. -/
theorem wilderSmooth_nonneg (period : ℕ) (rest : List ℚ)
    (hr : ∀ x ∈ rest, 0 ≤ x) :
    ∀ seed : ℚ, 0 ≤ seed → 0 ≤ wilderSmooth period seed rest := by
  induction rest with
  | nil => intro s hs; exact hs
  | cons x xs ih =>
    intro s hs
    rw [wilderSmooth_cons]
    refine ih (fun y hy => hr y (List.mem_cons_of_mem _ hy)) _ ?_
    cases period with
    | zero => simp
    | succ n =>
      apply div_nonneg
      · have h1 : (0 : ℚ) ≤ ((n + 1 : ℕ) : ℚ) - 1 := by push_cast; linarith
        have h2 := mul_nonneg hs h1
        have hx := hr x (List.mem_cons_self x xs)
        linarith
      · positivity

/-- The smoothed average gain is non-negative. -/
theorem rsiAvgGain_nonneg (closes : List ℚ) (period : ℕ) :
    0 ≤ rsiAvgGain closes period := by
  apply wilderSmooth_nonneg
  · intro x hx
    obtain ⟨c, _, rfl⟩ := List.mem_map.mp (List.drop_subset _ _ hx)
    exact le_max_right c 0
  · apply div_nonneg _ (Nat.cast_nonneg period)
    apply List.sum_nonneg
    intro x hx
    obtain ⟨c, _, rfl⟩ := List.mem_map.mp (List.take_subset _ _ hx)
    exact le_max_right c 0

/-- The smoothed average loss is non-negative. -/
theorem rsiAvgLoss_nonneg (closes : List ℚ) (period : ℕ) :
    0 ≤ rsiAvgLoss closes period := by
  apply wilderSmooth_nonneg
  · intro x hx
    obtain ⟨c, _, rfl⟩ := List.mem_map.mp (List.drop_subset _ _ hx)
    exact le_max_right (-c) 0
  · apply div_nonneg _ (Nat.cast_nonneg period)
    apply List.sum_nonneg
    intro x hx
    obtain ⟨c, _, rfl⟩ := List.mem_map.mp (List.take_subset _ _ hx)
    exact le_max_right (-c) 0

/-- With enough history, `rsiSpec` yields a value and it lies in `[0,100]`. -/
theorem rsiSpec_bounds (closes : List ℚ) (period : ℕ)
    (h : period + 1 ≤ closes.length) :
    ∃ r, rsiSpec closes period = some r ∧ 0 ≤ r ∧ r ≤ 100 := by
  rw [rsiSpec, if_neg (by omega)]
  by_cases hL : rsiAvgLoss closes period = 0
  · exact ⟨100, by rw [if_pos hL], by norm_num, by norm_num⟩
  · have hLpos : 0 < rsiAvgLoss closes period :=
      lt_of_le_of_ne (rsiAvgLoss_nonneg closes period) (Ne.symm hL)
    have hrs : 0 ≤ rsiAvgGain closes period / rsiAvgLoss closes period :=
      div_nonneg (rsiAvgGain_nonneg closes period) hLpos.le
    have hpos : 0 < 100 / (1 + rsiAvgGain closes period / rsiAvgLoss closes period) := by
      positivity
    have hle : 100 / (1 + rsiAvgGain closes period / rsiAvgLoss closes period) ≤ 100 :=
      div_le_self (by norm_num) (by linarith)
    exact ⟨_, by rw [if_neg hL], by linarith, by linarith⟩

/-- C5 counterexample: on the spec's 15-close example series with period
14 the code returns exactly 2275/33 ≈ 68.94, which is not within 0.5 of
70.5. -/
theorem C5_rsi_example_counterexample :
    calc_rsi rsiExample 14 = some (2275/33) ∧
      ¬(|(2275/33 : ℚ) - 70.5| ≤ 1/2) := by
  constructor
  · norm_num [calc_rsi, rsiExample, deltas]
  · rw [abs_le]
    norm_num

/-- C5 (amended): for every list of closes with at least `period+1`
elements, `calc_rsi` equals the Wilder-smoothed reference definition and is
always in `[0,100]`; on the 15-close example series with period 14 the
result is within 0.5 of 69.0 (not of 70.5 as the spec example says). -/
theorem C5_rsi_wilder_reference (closes : List ℚ) (period : ℕ)
    (h : period + 1 ≤ closes.length) :
    calc_rsi closes period = rsiSpec closes period ∧
    (∃ r, calc_rsi closes period = some r ∧ 0 ≤ r ∧ r ≤ 100) ∧
    (∃ r, calc_rsi rsiExample 14 = some r ∧ |r - 69| ≤ 1/2) := by
  refine ⟨calc_rsi_eq_rsiSpec _ _, ?_, ?_⟩
  · rw [calc_rsi_eq_rsiSpec]
    exact rsiSpec_bounds closes period h
  · refine ⟨2275/33, by norm_num [calc_rsi, rsiExample, deltas], ?_⟩
    rw [abs_le]
    norm_num

/-- C5 witness: the amended theorem applied to the example series itself. -/
theorem C5_rsi_wilder_reference_witness :
    calc_rsi rsiExample 14 = rsiSpec rsiExample 14 ∧
    (∃ r, calc_rsi rsiExample 14 = some r ∧ 0 ≤ r ∧ r ≤ 100) := by
  have h := C5_rsi_wilder_reference rsiExample 14 (by norm_num [rsiExample])
  exact ⟨h.1, h.2.1⟩

/-- C7 witness: the spec's own example — pnl% = 120, target% = 30 gives
ratio 4 ≥ 1.5, so dimension 1 contributes exactly +30. -/
theorem C7_sell_dim1_piecewise_witness :
    sellDim1 (some 120) 30 = 30 ∧
    compute_sell_score (some 120) 30 none 0 none 1 none none none none none =
      clampScore (45 + sellDim1 (some 120) 30 + sellDim2 none 0 (some 120)
        + sellDim3 none 1 + sellDim4 none none none none + sellDim5 none) := by
  have h := C7_sell_dim1_piecewise 120 30 none 0 1 none none none none none none
    (by norm_num)
  exact ⟨h.2.1 (by norm_num), h.1⟩

/-! ### C8, C9, C10: the Backfill Interpolator and the job guards -/

/-- Rounding to cents moves a value by at most half a cent. -/
theorem round2_close (x : ℚ) : |round2 x - x| ≤ 1/200 := by
  rw [round2, abs_le]
  have h1 := Int.floor_le (x * 100 + 1/2)
  have h2 := Int.lt_floor_add_one (x * 100 + 1/2)
  refine ⟨by linarith, by linarith⟩

/-- With the far price and the two fallback chains resolved, the backfill
rows are the mapped trailing-day list. -/
theorem backfillItemRows_eq (name : String) (today : ℕ) (av : AvgData)
    (noise : ℕ → ℚ) (far mid near : ℚ)
    (hfar : pyOr av.avg90 (pyOr av.avg30 av.avg7) = some far)
    (hmid : pyOr av.avg30 (pyOr av.avg7 av.avg90) = some mid)
    (hnear : pyOr av.avg7 (pyOr av.avg30 av.avg90) = some near) :
    backfillItemRows name today av noise =
      backfillDays.map (fun daysAgo =>
        ((⟨name, "ALL", today - daysAgo⟩ : BarKey),
         ({ openPrice := some (backfillPrice far mid near noise daysAgo)
            closePrice := some (backfillPrice far mid near noise daysAgo)
            highPrice := some (round2 (backfillPrice far mid near noise daysAgo * (101/100)))
            lowPrice := some (round2 (backfillPrice far mid near noise daysAgo * (99/100)))
            sellCount := none
            bidCount := none } : Bar))) := by
  simp only [backfillItemRows, hfar, hmid, hnear, Option.getD_some]

/-- The 45 backfill keys are pairwise distinct (dates `today-45 .. today-1`). -/
theorem backfillItemRows_keys_nodup (name : String) (today : ℕ) (av : AvgData)
    (noise : ℕ → ℚ) (far mid near : ℚ)
    (hfar : pyOr av.avg90 (pyOr av.avg30 av.avg7) = some far)
    (hmid : pyOr av.avg30 (pyOr av.avg7 av.avg90) = some mid)
    (hnear : pyOr av.avg7 (pyOr av.avg30 av.avg90) = some near)
    (htoday : 45 ≤ today) :
    ((backfillItemRows name today av noise).map Prod.fst).Nodup := by
  rw [backfillItemRows_eq name today av noise far mid near hfar hmid hnear,
    List.map_map, backfillDays, List.map_map]
  apply List.Nodup.map_on
  · intro i hi j hj hij
    rw [List.mem_range] at hi hj
    simp only [Function.comp, BarKey.mk.injEq] at hij
    omega
  · exact List.nodup_range 45

/-- The backfill row written for a given trailing day. -/
theorem backfillItemRows_day_mem (name : String) (today : ℕ) (av : AvgData)
    (noise : ℕ → ℚ) (far mid near : ℚ)
    (hfar : pyOr av.avg90 (pyOr av.avg30 av.avg7) = some far)
    (hmid : pyOr av.avg30 (pyOr av.avg7 av.avg90) = some mid)
    (hnear : pyOr av.avg7 (pyOr av.avg30 av.avg90) = some near)
    (daysAgo : ℕ) (h1 : 1 ≤ daysAgo) (h45 : daysAgo ≤ 45) :
    ((⟨name, "ALL", today - daysAgo⟩ : BarKey),
      ({ openPrice := some (backfillPrice far mid near noise daysAgo)
         closePrice := some (backfillPrice far mid near noise daysAgo)
         highPrice := some (round2 (backfillPrice far mid near noise daysAgo * (101/100)))
         lowPrice := some (round2 (backfillPrice far mid near noise daysAgo * (99/100)))
         sellCount := none
         bidCount := none } : Bar)) ∈ backfillItemRows name today av noise := by
  rw [backfillItemRows_eq name today av noise far mid near hfar hmid hnear]
  apply List.mem_map_of_mem
  rw [backfillDays]
  exact List.mem_map.mpr ⟨45 - daysAgo, List.mem_range.mpr (by omega), by omega⟩

/-- C8 (amended): for every item with at least one period-average available
(the far fallback chain resolves), the backfill generates exactly one
synthetic "ALL" bar per trailing day: 45 rows with pairwise distinct keys,
one for each of days 1..45, where the written close is the segment base
price (far average for days 16-45, linear interpolation toward the mid
average for days 5-15, near average for days 1-4) multiplied by the
perturbation factor `1 + noise` with `noise ∈ [-0.015, 0.015]`, and then
rounded to cents — hence within half a cent of base times a factor in
`[0.985, 1.015]` (but not always exactly equal to such a product, see the
counterexample). -/
theorem C8_backfill_trailing_45 (name : String) (today : ℕ) (av : AvgData)
    (noise : ℕ → ℚ) (far mid near : ℚ)
    (hfar : pyOr av.avg90 (pyOr av.avg30 av.avg7) = some far)
    (hmid : pyOr av.avg30 (pyOr av.avg7 av.avg90) = some mid)
    (hnear : pyOr av.avg7 (pyOr av.avg30 av.avg90) = some near)
    (htoday : 45 ≤ today)
    (hnoise : ∀ i, |noise i| ≤ 3/200) :
    (backfillItemRows name today av noise).length = 45 ∧
    ((backfillItemRows name today av noise).map Prod.fst).Nodup ∧
    (∀ r ∈ backfillItemRows name today av noise,
      r.1.item = name ∧ r.1.platform = "ALL") ∧
    (∀ daysAgo, 1 ≤ daysAgo → daysAgo ≤ 45 →
      ∃ r ∈ backfillItemRows name today av noise,
        r.1 = ⟨name, "ALL", today - daysAgo⟩ ∧
        r.2.closePrice = some (backfillPrice far mid near noise daysAgo) ∧
        backfillPrice far mid near noise daysAgo =
          round2 (backfillBase far mid near daysAgo * (1 + noise daysAgo)) ∧
        |backfillPrice far mid near noise daysAgo -
          backfillBase far mid near daysAgo * (1 + noise daysAgo)| ≤ 1/200 ∧
        197/200 ≤ 1 + noise daysAgo ∧ 1 + noise daysAgo ≤ 203/200) := by
  refine ⟨?_, backfillItemRows_keys_nodup name today av noise far mid near
    hfar hmid hnear htoday, ?_, ?_⟩
  · rw [backfillItemRows_eq name today av noise far mid near hfar hmid hnear]
    simp [backfillDays]
  · rw [backfillItemRows_eq name today av noise far mid near hfar hmid hnear]
    intro r hr
    obtain ⟨dA, _, rfl⟩ := List.mem_map.mp hr
    exact ⟨rfl, rfl⟩
  · intro dA hd1 hd45
    refine ⟨_, backfillItemRows_day_mem name today av noise far mid near
      hfar hmid hnear dA hd1 hd45, rfl, rfl, rfl, round2_close _, ?_, ?_⟩
    · have h := hnoise dA
      rw [abs_le] at h
      linarith [h.1]
    · have h := hnoise dA
      rw [abs_le] at h
      linarith [h.2]

/-- C8 witness: flat averages of 2, zero noise; day 10 gets the mid-segment
interpolated base, and all bounds hold. -/
theorem C8_backfill_trailing_45_witness :
    (backfillItemRows "A" 100 ⟨some 2, some 2, some 2⟩ (fun _ => 0)).length = 45 ∧
    (∃ r ∈ backfillItemRows "A" 100 ⟨some 2, some 2, some 2⟩ (fun _ => 0),
      r.1 = ⟨"A", "ALL", 90⟩ ∧
      r.2.closePrice = some (backfillPrice 2 2 2 (fun _ => 0) 10) ∧
      backfillPrice 2 2 2 (fun _ => 0) 10 =
        round2 (backfillBase 2 2 2 10 * (1 + 0)) ∧
      |backfillPrice 2 2 2 (fun _ => 0) 10 - backfillBase 2 2 2 10 * (1 + 0)| ≤ 1/200 ∧
      (197/200 : ℚ) ≤ 1 + 0 ∧ (1 + 0 : ℚ) ≤ 203/200) := by
  have h := C8_backfill_trailing_45 "A" 100 ⟨some 2, some 2, some 2⟩ (fun _ => 0) 2 2 2
    (by norm_num [pyOr]) (by norm_num [pyOr]) (by norm_num [pyOr]) (by norm_num)
    (fun i => by norm_num)
  exact ⟨h.1, h.2.2.2 10 (by norm_num) (by norm_num)⟩

/-- C8 counterexample: base 2.5 with an in-range noise of +1.46% rounds to
2.54, which exceeds 2.5 times 1.015 — the written close is not the base
multiplied by any factor in [0.985, 1.015]. -/
theorem C8_backfill_counterexample :
    backfillBase (5/2) (5/2) (5/2) 45 = 5/2 ∧
    |(73/5000 : ℚ)| ≤ 3/200 ∧
    backfillPrice (5/2) (5/2) (5/2) (fun _ => 73/5000) 45 = 127/50 ∧
    (127/50 : ℚ) > 5/2 * (203/200) := by
  refine ⟨by norm_num [backfillBase], ?_, ?_, by norm_num⟩
  · rw [abs_le]
    constructor <;> norm_num
  · rw [backfillPrice, show backfillBase (5/2) (5/2) (5/2) 45 = 5/2 by
      norm_num [backfillBase], round2]
    have he : (5/2 : ℚ) * (1 + 73/5000) * 100 + 1/2 = 5083/20 := by norm_num
    rw [he, show ⌊(5083/20 : ℚ)⌋ = 254 from Int.floor_eq_iff.mpr (by norm_num)]
    norm_num

/-- C9 (amended): whenever the SteamDT API key is missing (unset or empty),
both jobs decline to run — the body is never invoked and no exception
surfaces (the guards are total) — but the reported states differ: the
collection job leaves its polled state untouched (hence still idle when it
was idle), while the backfill job reports status "error" with progress
"No SteamDT API key", not "idle". -/
theorem C9_missing_key_guard (apiKey : Option String)
    (hmiss : keyMissing apiKey = true) :
    (∀ (body : CollectorState → CollectorState) (st : CollectorState),
      collect_prices apiKey body st = st) ∧
    (∀ (body : BackfillState → BackfillState) (st : BackfillState),
      backfill_avg_prices apiKey body st =
        { st with status := "error", progress := "No SteamDT API key" }) := by
  constructor <;> intro body st <;> simp [collect_prices, backfill_avg_prices, hmiss]

/-- C9 witness: with no key configured, collection keeps its idle state and
backfill reports the error state. -/
theorem C9_missing_key_guard_witness :
    collect_prices none id ⟨"idle", none⟩ = ⟨"idle", none⟩ ∧
    backfill_avg_prices none id ⟨"idle", ""⟩ = ⟨"error", "No SteamDT API key"⟩ :=
  ⟨(C9_missing_key_guard none rfl).1 id ⟨"idle", none⟩,
   (C9_missing_key_guard none rfl).2 id ⟨"idle", ""⟩⟩

/-- C9 counterexample: on a missing key the backfill job reports status
"error", not the "idle" the claim states. -/
theorem C9_missing_key_counterexample :
    (backfill_avg_prices none id ⟨"idle", ""⟩).status = "error" ∧
    ¬(backfill_avg_prices none id ⟨"idle", ""⟩).status = "idle" := by
  constructor
  · rfl
  · simp [backfill_avg_prices, keyMissing]

/-- The backfill upsert leaves other keys untouched. -/
theorem lookupBar_upsertBackfill_ne (k : BarKey) (v : Bar)
    (s : List (BarKey × Bar)) (k2 : BarKey) (h : k2 ≠ k) :
    lookupBar (upsertBackfill k v s) k2 = lookupBar s k2 := by
  induction s with
  | nil => simp [upsertBackfill, lookupBar_cons, lookupBar_nil, Ne.symm h]
  | cons p rest ih =>
    by_cases hp : p.1 = k
    · have hp2 : p.1 ≠ k2 := by rw [hp]; exact Ne.symm h
      simp [upsertBackfill, hp, lookupBar_cons, Ne.symm h, hp2]
    · simp [upsertBackfill, hp, lookupBar_cons, ih]

/-- After a backfill upsert the key holds the upsert's four price fields
(counts may come from a pre-existing row). -/
theorem lookupBar_upsertBackfill_self (k : BarKey) (v : Bar)
    (s : List (BarKey × Bar)) :
    ∃ w, lookupBar (upsertBackfill k v s) k = some w ∧
      w.openPrice = v.openPrice ∧ w.closePrice = v.closePrice ∧
      w.highPrice = v.highPrice ∧ w.lowPrice = v.lowPrice := by
  induction s with
  | nil => exact ⟨v, by simp [upsertBackfill, lookupBar_cons, lookupBar_nil], rfl, rfl, rfl, rfl⟩
  | cons p rest ih =>
    by_cases hp : p.1 = k
    · refine ⟨{ p.2 with
        openPrice := v.openPrice
        closePrice := v.closePrice
        highPrice := v.highPrice
        lowPrice := v.lowPrice }, ?_, rfl, rfl, rfl, rfl⟩
      simp [upsertBackfill, hp, lookupBar_cons]
    · obtain ⟨w, hw, h1, h2, h3, h4⟩ := ih
      refine ⟨w, ?_, h1, h2, h3, h4⟩
      simp [upsertBackfill, hp, lookupBar_cons, hw]

/-- Keys not written by any backfill row keep their binding. -/
theorem lookupBar_foldBackfill_not_mem (rows : List (BarKey × Bar)) :
    ∀ (s : List (BarKey × Bar)) (k : BarKey), (∀ kv ∈ rows, kv.1 ≠ k) →
      lookupBar (rows.foldl (fun acc r => upsertBackfill r.1 r.2 acc) s) k =
        lookupBar s k := by
  induction rows with
  | nil => intro s k _; rfl
  | cons r rest ih =>
    intro s k h
    rw [List.foldl_cons, ih _ k (fun kv hkv => h kv (List.mem_cons_of_mem _ hkv)),
      lookupBar_upsertBackfill_ne _ _ _ _ (Ne.symm (h r (List.mem_cons_self r rest)))]

/-- With pairwise distinct keys, each backfill row's key holds that row's
price fields after the fold — whatever the store held before. -/
theorem lookupBar_foldBackfill_mem (rows : List (BarKey × Bar)) :
    ∀ (s : List (BarKey × Bar)) (kv : BarKey × Bar),
      ((rows.map Prod.fst).Nodup) → kv ∈ rows →
      ∃ w, lookupBar (rows.foldl (fun acc r => upsertBackfill r.1 r.2 acc) s) kv.1 =
          some w ∧
        w.openPrice = kv.2.openPrice ∧ w.closePrice = kv.2.closePrice ∧
        w.highPrice = kv.2.highPrice ∧ w.lowPrice = kv.2.lowPrice := by
  induction rows with
  | nil => intro s kv _ h; simp at h
  | cons r rest ih =>
    intro s kv hnd hmem
    rw [List.map_cons, List.nodup_cons] at hnd
    rw [List.foldl_cons]
    rcases List.mem_cons.mp hmem with he | hm
    · subst he
      have hnot : ∀ kv2 ∈ rest, kv2.1 ≠ kv.1 := by
        intro kv2 hkv2 heq
        exact hnd.1 (heq ▸ List.mem_map_of_mem Prod.fst hkv2)
      obtain ⟨w, hw, h1, h2, h3, h4⟩ := lookupBar_upsertBackfill_self kv.1 kv.2 s
      exact ⟨w, by rw [lookupBar_foldBackfill_not_mem rest _ _ hnot]; exact hw,
        h1, h2, h3, h4⟩
    · exact ih _ kv hnd.2 hm

/-- C10 (amended): the backfill trigger runs whenever no backfill is
already in flight — it performs no check of existing genuine history — and
the run overwrites the price fields of every "ALL"-platform bar of the
trailing 45 days with the synthetic values: after triggering, the stored
close for the day is the synthetic backfill price regardless of what a
genuine row held before (so genuine DailyBars ARE replaced, contrary to
the claim). -/
theorem C10_backfill_overwrites (bstate : BackfillState)
    (s : List (BarKey × Bar)) (name : String) (today : ℕ) (av : AvgData)
    (noise : ℕ → ℚ) (far mid near : ℚ)
    (hfar : pyOr av.avg90 (pyOr av.avg30 av.avg7) = some far)
    (hmid : pyOr av.avg30 (pyOr av.avg7 av.avg90) = some mid)
    (hnear : pyOr av.avg7 (pyOr av.avg30 av.avg90) = some near)
    (htoday : 45 ≤ today)
    (hnr : bstate.status ≠ "running")
    (daysAgo : ℕ) (h1 : 1 ≤ daysAgo) (h45 : daysAgo ≤ 45) :
    (trigger_backfill bstate (backfillApplyItem name today av noise) s).1 = true ∧
    (∃ w, lookupBar (trigger_backfill bstate (backfillApplyItem name today av noise) s).2
        ⟨name, "ALL", today - daysAgo⟩ = some w ∧
      w.closePrice = some (backfillPrice far mid near noise daysAgo) ∧
      w.openPrice = some (backfillPrice far mid near noise daysAgo)) := by
  have htr : trigger_backfill bstate (backfillApplyItem name today av noise) s =
      (true, backfillApplyItem name today av noise s) := by
    rw [trigger_backfill, if_neg hnr]
  rw [htr]
  refine ⟨rfl, ?_⟩
  obtain ⟨w, hw, ho, hc, _, _⟩ := lookupBar_foldBackfill_mem
    (backfillItemRows name today av noise) s
    ((⟨name, "ALL", today - daysAgo⟩ : BarKey),
      ({ openPrice := some (backfillPrice far mid near noise daysAgo)
         closePrice := some (backfillPrice far mid near noise daysAgo)
         highPrice := some (round2 (backfillPrice far mid near noise daysAgo * (101/100)))
         lowPrice := some (round2 (backfillPrice far mid near noise daysAgo * (99/100)))
         sellCount := none
         bidCount := none } : Bar))
    (backfillItemRows_keys_nodup name today av noise far mid near hfar hmid hnear htoday)
    (backfillItemRows_day_mem name today av noise far mid near hfar hmid hnear
      daysAgo h1 h45)
  exact ⟨w, hw, hc, ho⟩

/-- C10 witness: flat averages of 2, zero noise, an idle trigger state and
a store holding a genuine bar 45 days back: the trigger starts and the key
afterwards holds the synthetic close. -/
theorem C10_backfill_overwrites_witness :
    (trigger_backfill ⟨"idle", ""⟩
      (backfillApplyItem "A" 100 ⟨some 2, some 2, some 2⟩ (fun _ => 0)) exStore).1 = true ∧
    (∃ w, lookupBar (trigger_backfill ⟨"idle", ""⟩
        (backfillApplyItem "A" 100 ⟨some 2, some 2, some 2⟩ (fun _ => 0)) exStore).2
        ⟨"A", "ALL", 55⟩ = some w ∧
      w.closePrice = some (backfillPrice 2 2 2 (fun _ => 0) 45) ∧
      w.openPrice = some (backfillPrice 2 2 2 (fun _ => 0) 45)) :=
  C10_backfill_overwrites ⟨"idle", ""⟩ exStore "A" 100 ⟨some 2, some 2, some 2⟩
    (fun _ => 0) 2 2 2 (by norm_num [pyOr]) (by norm_num [pyOr]) (by norm_num [pyOr])
    (by norm_num) (by simp) 45 (by norm_num) (by norm_num)

/-- C10 counterexample: the genuine "ALL" bar (close 999) for a date within
the trailing 45 days is replaced by the synthetic value (close 2) when the
backfill is triggered, although genuine history exists — the claim's
non-interference fails. -/
theorem C10_backfill_counterexample :
    (trigger_backfill ⟨"idle", ""⟩
      (backfillApplyItem "A" 100 ⟨some 2, some 2, some 2⟩ (fun _ => 0)) exStore).1 = true ∧
    (lookupBar (trigger_backfill ⟨"idle", ""⟩
        (backfillApplyItem "A" 100 ⟨some 2, some 2, some 2⟩ (fun _ => 0)) exStore).2
        ⟨"A", "ALL", 55⟩).map Bar.closePrice ≠ some (some 999) := by
  have hprice : backfillPrice 2 2 2 (fun _ => 0) 45 = 2 := by
    rw [backfillPrice, show backfillBase 2 2 2 45 = 2 by norm_num [backfillBase], round2]
    have he : (2 : ℚ) * (1 + 0) * 100 + 1/2 = 401/2 := by norm_num
    rw [he, show ⌊(401/2 : ℚ)⌋ = 200 from Int.floor_eq_iff.mpr (by norm_num)]
    norm_num
  have htr : trigger_backfill ⟨"idle", ""⟩
      (backfillApplyItem "A" 100 ⟨some 2, some 2, some 2⟩ (fun _ => 0)) exStore =
      (true, backfillApplyItem "A" 100 ⟨some 2, some 2, some 2⟩ (fun _ => 0) exStore) := by
    rw [trigger_backfill, if_neg (by simp)]
  obtain ⟨w, hw, _, hc, _, _⟩ := lookupBar_foldBackfill_mem
    (backfillItemRows "A" 100 ⟨some 2, some 2, some 2⟩ (fun _ => 0)) exStore
    ((⟨"A", "ALL", 100 - 45⟩ : BarKey),
      ({ openPrice := some (backfillPrice 2 2 2 (fun _ => 0) 45)
         closePrice := some (backfillPrice 2 2 2 (fun _ => 0) 45)
         highPrice := some (round2 (backfillPrice 2 2 2 (fun _ => 0) 45 * (101/100)))
         lowPrice := some (round2 (backfillPrice 2 2 2 (fun _ => 0) 45 * (99/100)))
         sellCount := none
         bidCount := none } : Bar))
    (backfillItemRows_keys_nodup "A" 100 ⟨some 2, some 2, some 2⟩ (fun _ => 0) 2 2 2
      (by norm_num [pyOr]) (by norm_num [pyOr]) (by norm_num [pyOr]) (by norm_num))
    (backfillItemRows_day_mem "A" 100 ⟨some 2, some 2, some 2⟩ (fun _ => 0) 2 2 2
      (by norm_num [pyOr]) (by norm_num [pyOr]) (by norm_num [pyOr]) 45
      (by norm_num) (by norm_num))
  refine ⟨by rw [htr], ?_⟩
  rw [htr]
  show (lookupBar (backfillApplyItem "A" 100 ⟨some 2, some 2, some 2⟩ (fun _ => 0) exStore)
    ⟨"A", "ALL", 100 - 45⟩).map Bar.closePrice ≠ some (some 999)
  rw [show backfillApplyItem "A" 100 ⟨some 2, some 2, some 2⟩ (fun _ => 0) exStore =
    (backfillItemRows "A" 100 ⟨some 2, some 2, some 2⟩ (fun _ => 0)).foldl
      (fun acc r => upsertBackfill r.1 r.2 acc) exStore from rfl]
  rw [hw]
  simp only [Option.map_some']
  have hcv : w.closePrice = some 2 := by
    rw [hc]
    show some (backfillPrice 2 2 2 (fun _ => 0) 45) = some 2
    rw [hprice]
  rw [hcv]
  intro hcontra
  rw [Option.some.injEq, Option.some.injEq] at hcontra
  exact absurd hcontra (by norm_num)

end CS2
